import Mathlib

/-!
# Pinboard client: codecs, request construction and session guard

A shallow embedding of `pinboard.go` (package `pinboard`).

Conventions of the embedding:

* a Go `string` / `[]byte` is a finite byte sequence, embedded as a list with
  one element per byte (`GoString`); `len`, slicing, `==`, `strings.Trim` and
  `strings.Split` act on it element by element;
* a Go value that can be `nil` (slice, map, `error`) is an `Option`;
* Go `int` is the 64-bit signed integer; the values handled here stay far
  inside its range, so they are mathematical integers;
* a function that can panic (slice bounds, failed type assertion) returns
  `Option`, with `none` for the panic;
* the parts of the Go standard library the program observes only through
  their results (`http.Get`, the JSON syntax layer, `time.Parse`,
  `time.Now`) are fields of `Env`.
-/

namespace PinboardGo

/-! ## Strings -/

/-- A Go string: a byte sequence, one list element per byte. -/
abbrev GoString := List Char

/-- Go slice expression `s[lo:hi]` on a string; `none` is the run-time panic
for `lo > hi` or `hi > len(s)`. -/
def slice (s : GoString) (lo hi : Nat) : Option GoString :=
  if lo ≤ hi ∧ hi ≤ s.length then some ((s.drop lo).take (hi - lo)) else none

/-- The digit loop of `strconv.Atoi` (base 10): `none` at the first byte that
is not an ASCII digit. -/
def parseDigits : GoString → Nat → Option Nat
  | [], acc => some acc
  | c :: cs, acc =>
    if 48 ≤ c.toNat ∧ c.toNat ≤ 57 then parseDigits cs (acc * 10 + (c.toNat - 48)) else none

/-- Go `strconv.Atoi`: an optional sign followed by at least one decimal
digit, the value inside the 64-bit `int` range; `none` is a returned error. -/
def strconvAtoi (s : GoString) : Option Int :=
  match s with
  | [] => none
  | c :: cs =>
    let neg : Bool := c = '-'
    let ds : GoString := if c = '-' ∨ c = '+' then cs else s
    match ds with
    | [] => none
    | _ :: _ =>
      match parseDigits ds 0 with
      | none => none
      | some n =>
        let v : Int := if neg then -(n : Int) else (n : Int)
        if -(2 : Int) ^ 63 ≤ v ∧ v < (2 : Int) ^ 63 then some v else none

/-- Source `atoi`: converts a string to an integer, 0 when the conversion
fails. -/
def atoi (s : GoString) : Int :=
  match strconvAtoi s with
  | some l => l
  | none => 0

/-- Decimal digits of a natural number (`strconv.Itoa` on a non-negative
value). -/
def natToString (n : Nat) : GoString := Nat.toDigits 10 n

/-- Go `strconv.Itoa`. -/
def itoa (n : Int) : GoString :=
  if n < 0 then '-' :: natToString n.natAbs else natToString n.natAbs

/-- Source `stringToBool`: true if `s == "yes"`, otherwise false. -/
def stringToBool (s : GoString) : Bool :=
  if s = "yes".toList then true else false

/-- Source `boolToString`: `"yes"` if `b`, otherwise `"no"`. -/
def boolToString (b : Bool) : GoString :=
  if b then "yes".toList else "no".toList

/-! ## Package `time` -/

/-- The location of a `time.Time`: UTC (the nil location pointer) or a zone at
a fixed offset in seconds east of UTC. -/
inductive Location where
  | utc
  | fixed (offset : Int)
  deriving DecidableEq, Repr

/-- Seconds east of UTC. -/
def Location.offset : Location → Int
  | .utc => 0
  | .fixed o => o

/-- Go `time.Time`: seconds since January 1, year 1, 00:00:00 UTC,
nanoseconds within the second, and the location. -/
structure Time where
  sec : Int
  nsec : Int
  loc : Location
  deriving DecidableEq, Repr

/-- The zero value `time.Time{}`. -/
def Time.zero : Time := ⟨0, 0, .utc⟩

/-- Go `Time.IsZero`: the instant is January 1, year 1, 00:00:00 UTC. -/
def Time.IsZero (t : Time) : Bool := t.sec = 0 ∧ t.nsec = 0

/-- Go `Time.UTC`: the same instant with the location set to UTC. -/
def Time.UTC (t : Time) : Time := { t with loc := .utc }

/-- Go `time.norm`: carries `lo` into `hi` so that `0 <= lo < base`. -/
def norm (hi lo base : Int) : Int × Int :=
  let (hi1, lo1) :=
    if lo < 0 then
      let n := (-lo - 1) / base + 1
      (hi - n, lo + n * base)
    else (hi, lo)
  if lo1 ≥ base then
    let n := lo1 / base
    (hi1 + n, lo1 - n * base)
  else (hi1, lo1)

/-- Go `time.daysBefore`: days in a non-leap year before each month. -/
def daysBefore : List Int :=
  [0, 31, 59, 90, 120, 151, 181, 212, 243, 273, 304, 334, 365]

/-- Go `time.isLeap`. -/
def isLeap (year : Int) : Bool :=
  year % 4 = 0 ∧ (year % 100 ≠ 0 ∨ year % 400 = 0)

/-- Go `time.daysSinceEpoch`, counted from January 1 of year 1 (Go counts
from a year congruent to 1 modulo 400, which shifts the result by whole
400-year cycles only). -/
def daysSinceEpoch (year : Int) : Int :=
  let y := year - 1
  let n400 := y / 400
  let y1 := y - 400 * n400
  let n100 := y1 / 100
  let y2 := y1 - 100 * n100
  let n4 := y2 / 4
  let y3 := y2 - 4 * n4
  146097 * n400 + 36524 * n100 + 1461 * n4 + 365 * y3

/-- Go `time.Date`: out-of-range month, day, hour, minute and second are
normalised by carrying into the next larger unit. -/
def Date (year month day hour min sec nsec : Int) (loc : Location) : Time :=
  let (year, m) := norm year (month - 1) 12
  let month := m + 1
  let (sec, nsec) := norm sec nsec 1000000000
  let (min, sec) := norm min sec 60
  let (hour, min) := norm hour min 60
  let (day, hour) := norm day hour 24
  let d := daysSinceEpoch year + daysBefore.getD (month - 1).toNat 0
  let d := if isLeap year ∧ month ≥ 3 then d + 1 else d
  let d := d + (day - 1)
  let abs := d * 86400 + (hour * 3600 + min * 60 + sec)
  ⟨abs - loc.offset, nsec, loc⟩

/-- Calendar fields of a time. -/
structure Civil where
  year : Int
  month : Int
  day : Int
  hour : Int
  minute : Int
  second : Int
  deriving DecidableEq, Repr

/-- Go `time.absDate`: year, month and day of a day count since January 1,
year 1. -/
def absDate (days : Int) : Int × Int × Int :=
  let n := days / 146097
  let y := 400 * n
  let d := days - 146097 * n
  let n := d / 36524
  let n := n - n / 4
  let y := y + 100 * n
  let d := d - 36524 * n
  let n := d / 1461
  let y := y + 4 * n
  let d := d - 1461 * n
  let n := d / 365
  let n := n - n / 4
  let y := y + n
  let d := d - 365 * n
  let year := y + 1
  if isLeap year ∧ d = 31 + 29 - 1 then (year, 2, 29)
  else
    let day := if isLeap year ∧ d > 31 + 29 - 1 then d - 1 else d
    let month := day / 31
    let e := daysBefore.getD (month + 1).toNat 0
    if day ≥ e then (year, month + 2, day - e + 1)
    else (year, month + 1, day - daysBefore.getD month.toNat 0 + 1)

/-- Go `Time.Date` and `Time.Clock`: the calendar fields of `t` in its own
location. -/
def Time.civil (t : Time) : Civil :=
  let abs := t.sec + t.loc.offset
  let (y, m, d) := absDate (abs / 86400)
  let s := abs % 86400
  ⟨y, m, d, s / 3600, s % 3600 / 60, s % 60⟩

/-- Go `time.appendInt`: decimal, zero-padded to `width`, with a leading
minus sign for a negative value. -/
def appendInt (x : Int) (width : Nat) : GoString :=
  let ds := natToString x.natAbs
  let padded := List.replicate (width - ds.length) '0' ++ ds
  if x < 0 then '-' :: padded else padded

/-- Go `Time.Format(time.RFC3339)`, layout `2006-01-02T15:04:05Z07:00`; `zone`
is the offset in minutes, the quotient of the offset by 60 truncated towards
zero. -/
def Time.FormatRFC3339 (t : Time) : GoString :=
  let c := t.civil
  let o := t.loc.offset
  let zone : GoString :=
    if o = 0 then ['Z']
    else
      let zone : Int := Int.sign o * (o.natAbs / 60 : Nat)
      let m := zone.natAbs
      (if zone < 0 then '-' else '+') ::
        (appendInt (m / 60 : Nat) 2 ++ ':' :: appendInt (m % 60 : Nat) 2)
  appendInt c.year 4 ++ '-' :: appendInt c.month 2 ++ '-' :: appendInt c.day 2 ++ 'T' ::
    appendInt c.hour 2 ++ ':' :: appendInt c.minute 2 ++ ':' :: appendInt c.second 2 ++ zone

/-- Source `parseDateTime`: parses a date time in the format
`2010-02-11 03:46:56`; any other length gives the zero time. The slice
bounds are the ones of the source, `dt[6:7]` for the month included. -/
def parseDateTime (dt : GoString) : Option Time :=
  if dt.length ≠ 19 then some Time.zero
  else do
    let yr := atoi (← slice dt 0 4)
    let mo := atoi (← slice dt 6 7)
    let dy := atoi (← slice dt 8 10)
    let hr := atoi (← slice dt 11 13)
    let mn := atoi (← slice dt 14 16)
    let sd := atoi (← slice dt 17 19)
    pure (Date yr mo dy hr mn sd 0 .utc)

/-! ## Maps and `url.Values` -/

/-- A Go map with string keys: the bindings, at most one used per key (the
first one). -/
abbrev GoMap (β : Type) := List (GoString × β)

/-- Map assignment `m[k] = x`. -/
def mapSet {β : Type} (m : GoMap β) (k : GoString) (x : β) : GoMap β :=
  match m with
  | [] => [(k, x)]
  | (k1, y) :: r => if k1 = k then (k, x) :: r else (k1, y) :: mapSet r k x

/-- Map index `m[k]` with the comma-ok result. -/
def mapGet {β : Type} (m : GoMap β) (k : GoString) : Option β :=
  match m with
  | [] => none
  | (k1, y) :: r => if k1 = k then some y else mapGet r k

/-- The keys of a map, each once. -/
def mapKeys {β : Type} (m : GoMap β) : List GoString :=
  (m.map Prod.fst).dedup

/-- Go `url.Values`, a `map[string][]string`. -/
abbrev Values := GoMap (List GoString)

/-- Go `Values.Get`: the first value of the key, or the empty string. -/
def Values.Get (v : Values) (key : GoString) : GoString :=
  match mapGet v key with
  | some (x :: _) => x
  | _ => []

/-- Go `Values.Set`: replaces the values of the key by the single value. -/
def Values.Set (v : Values) (key value : GoString) : Values :=
  mapSet v key [value]

/-- Byte-wise lexicographic order on strings (Go `<=` on strings). -/
def strLe : GoString → GoString → Bool
  | [], _ => true
  | _ :: _, [] => false
  | a :: as, b :: bs => a.toNat < b.toNat || (a.toNat = b.toNat && strLe as bs)

/-- Upper-case hexadecimal digit. -/
def hexDigit (n : Nat) : Char :=
  "0123456789ABCDEF".toList.getD (n % 16) '0'

/-- Go `url.shouldEscape` in query-component mode: letters, digits and
`-_.~` are kept, every other byte escaped. -/
def shouldEscape (c : Char) : Bool :=
  !(c.isAlphanum || c = '-' || c = '_' || c = '.' || c = '~')

/-- Go `url.QueryEscape`. -/
def QueryEscape (s : GoString) : GoString :=
  s.flatMap fun c =>
    if !shouldEscape c then [c]
    else if c = ' ' then ['+']
    else ['%', hexDigit (c.toNat / 16), hexDigit c.toNat]

/-- The `key=value` entries that `Values.Encode` writes, in its order: keys
sorted, the values of one key in their order. -/
def Values.entries (v : Values) : List (GoString × GoString) :=
  ((mapKeys v).insertionSort (fun a b => strLe a b = true)).flatMap fun k =>
    ((mapGet v k).getD []).map fun x => (k, x)

/-- One `key=value` entry of a query string, both sides escaped. -/
def encodeEntry (e : GoString × GoString) : GoString :=
  QueryEscape e.1 ++ '=' :: QueryEscape e.2

/-- Go `Values.Encode`: the entries joined by `&`. -/
def Values.Encode (v : Values) : GoString :=
  List.intercalate ['&'] ((Values.entries v).map encodeEntry)

/-- Go `fmt.Sprintf` for a format whose only verbs are `%s`. -/
def sprintf : GoString → List GoString → GoString
  | [], _ => []
  | [c], _ => [c]
  | c :: d :: r, args =>
    if c = '%' ∧ d = 's' then
      match args with
      | a :: rest => a ++ sprintf r rest
      | [] => "%!s(MISSING)".toList ++ sprintf r []
    else c :: sprintf (d :: r) args

/-- Source `baseURL`. -/
def baseURL : GoString := "https://api.pinboard.in/v1/%s/?%s".toList

/-! ## Errors, transport and the session -/

/-- A Go `error` value. `new msg` is `errors.New(msg)`; the other
constructors are the errors of the standard library, told apart by origin. -/
inductive GoError where
  | new (msg : GoString)
  | transport (msg : GoString)
  | jsonSyntax
  | jsonType
  | timeParse
  deriving DecidableEq, Repr

/-- What `http.Get` followed by reading the body gives: a failure of the
request itself, or a response with its status code, the bytes of the body
and the error (if any) that ended the read. -/
inductive HttpReply where
  | failed (err : GoError)
  | response (status : Int) (body : GoString) (readErr : Option GoError)

/-- A decoded JSON value, as `encoding/json` stores it in an `interface{}`.
A number is a `float64` there; the program reads one only through `int(f)`,
and `num` carries that integer. -/
inductive JSON where
  | null
  | bool (b : Bool)
  | num (trunc : Int)
  | str (s : GoString)
  | arr (xs : List JSON)
  | obj (members : List (GoString × JSON))

/-- The world outside the package. -/
structure Env where
  /-- Behaviour of `http.Get(url)` and of reading the response body. -/
  httpGet : GoString → HttpReply
  /-- Go `http.StatusText`. -/
  statusText : Int → GoString
  /-- The syntax layer of `json.Unmarshal`: the value a text denotes, `none`
  when the text is not valid JSON. -/
  jsonParse : GoString → Option JSON
  /-- Go `time.Parse(time.RFC3339, s)`; `none` is a returned error. -/
  parseRFC3339 : GoString → Option Time
  /-- Go `time.Parse("2006-01-02", s)`; `none` is a returned error. -/
  parseDay : GoString → Option Time
  /-- Go `time.Now()`. -/
  now : Time

/-- Go `ioutil.ReadAll`: the slice it returns is never nil. -/
def ioutilReadAll (body : GoString) (readErr : Option GoError) :
    Option GoString × Option GoError :=
  (some body, readErr)

/-- Source `do`: performs a HTTP GET on a URL. -/
def doGet (env : Env) (url : GoString) : Option GoString × Option GoError :=
  match env.httpGet url with
  | .failed e => (none, some e)
  | .response c rawBody readErr =>
    if c ≠ 200 then
      (none, some (.new ("HTTP ".toList ++ itoa c ++ " ".toList ++ env.statusText c)))
    else
      match ioutilReadAll rawBody readErr with
      | (_, some e) => (none, some e)
      | (none, none) => (none, some (.new "No data returned from server.".toList))
      | (some body, none) =>
        if body.length = 1 ∧ body.head? = some (Char.ofNat 10) then
          (none, some (.new "No data returned from server.".toList))
        else (some body, none)

/-- Source `Pinboard`: the session. -/
structure Pinboard where
  token : GoString
  authed : Bool
  deriving DecidableEq, Repr

/-- Source `New`: a new unauthorized instance. -/
def New : Pinboard := ⟨[], false⟩

/-- Source `Token`. -/
def Pinboard.Token (p : Pinboard) : GoString := p.token

/-- The parameter set `makeURL` encodes: its argument (an empty set for
nil) with `format` set and `auth_token` defaulted to the stored token. -/
def Pinboard.makeURLVals (p : Pinboard) (vals : Option Values) : Values :=
  let vals : Values := match vals with
    | none => []
    | some v => v
  let vals := Values.Set vals "format".toList "json".toList
  let a := Values.Get vals "auth_token".toList
  if a = [] then Values.Set vals "auth_token".toList p.token else vals

/-- Source `makeURL`. -/
def Pinboard.makeURL (p : Pinboard) (method : GoString) (vals : Option Values) : GoString :=
  sprintf baseURL [method, (p.makeURLVals vals).Encode]

/-- The results of a call: the returned value, the returned error, and the
URLs on which `do` was invoked during the call, in order. -/
structure Ret (α : Type) where
  val : α
  err : Option GoError
  gets : List GoString

/-- Source `performRequest`. -/
def Pinboard.performRequest (env : Env) (p : Pinboard) (method : GoString)
    (vals : Option Values) : Ret (Option GoString) :=
  if !p.authed ∧ method ≠ "user/api_token".toList then
    ⟨none, some (.new "API not authorized.".toList), []⟩
  else
    let url := p.makeURL method vals
    match doGet env url with
    | (_, some err) => ⟨none, some err, [url]⟩
    | (data, none) => ⟨data, none, [url]⟩

/-! ## JSON decoders -/

/-- A Go map built from the members of a JSON object: a later member
replaces an earlier one with the same key. -/
def mkMap {β : Type} (members : List (GoString × β)) : GoMap β :=
  members.foldl (fun m e => mapSet m e.1 e.2) []

/-- Storing the members of a JSON object into a `map[string]string`: a
string is stored, `null` leaves the zero value (the empty string), any other
value is a type error (`none`). -/
def stringMembers : List (GoString × JSON) → Option (List (GoString × GoString))
  | [] => some []
  | (k, .str s) :: r => (stringMembers r).map fun m => (k, s) :: m
  | (k, .null) :: r => (stringMembers r).map fun m => (k, []) :: m
  | _ :: _ => none

/-- Source `decodeJSON`: decodes a JSON structure into
`map[string]string`. -/
def decodeJSON (env : Env) (jsonBlob : GoString) :
    Option (GoMap GoString) × Option GoError :=
  match env.jsonParse jsonBlob with
  | none => (none, some .jsonSyntax)
  | some .null => (none, none)
  | some (.obj members) =>
    match stringMembers members with
    | some m => (some (mkMap m), none)
    | none => (none, some .jsonType)
  | some _ => (none, some .jsonType)

/-- Source `decodeJSONIFace`: decodes a JSON structure into
`map[string]interface{}`. -/
def decodeJSONIFace (env : Env) (jsonBlob : GoString) :
    Option (GoMap JSON) × Option GoError :=
  match env.jsonParse jsonBlob with
  | none => (none, some .jsonSyntax)
  | some .null => (none, none)
  | some (.obj members) => (some (mkMap members), none)
  | some _ => (none, some .jsonType)

/-- Source `decodeJSONListIFace`: decodes a JSON structure into
`[]interface{}`. -/
def decodeJSONListIFace (env : Env) (jsonBlob : GoString) :
    Option (List JSON) × Option GoError :=
  match env.jsonParse jsonBlob with
  | none => (none, some .jsonSyntax)
  | some .null => (none, none)
  | some (.arr xs) => (some xs, none)
  | some _ => (none, some .jsonType)

/-- Index `j[k]` of a possibly nil `map[string]string`: the empty string
for a missing key. -/
def strIndex (j : Option (GoMap GoString)) (k : GoString) : GoString :=
  match j with
  | none => []
  | some m => (mapGet m k).getD []

/-- Index `j[k]` of a possibly nil `map[string]interface{}`: the nil
interface (`none`) for a missing key. -/
def ifaceIndex (j : Option (GoMap JSON)) (k : GoString) : Option JSON :=
  match j with
  | none => none
  | some m => mapGet m k

/-- Type assertion `x.(string)`; `none` is the panic. -/
def asString : Option JSON → Option GoString
  | some (.str s) => some s
  | _ => none

/-- Type assertion `x.(float64)` followed by `int(...)`; `none` is the
panic. -/
def asInt : Option JSON → Option Int
  | some (.num n) => some n
  | _ => none

/-- Type assertion `x.([]interface{})`; `none` is the panic. -/
def asList : Option JSON → Option (List JSON)
  | some (.arr xs) => some xs
  | _ => none

/-- Type assertion `x.(map[string]interface{})`; `none` is the panic. -/
def asMap : Option JSON → Option (GoMap JSON)
  | some (.obj members) => some (mkMap members)
  | _ => none

/-! ## Records -/

/-- Source `Bookmark`. -/
structure Bookmark where
  URL : GoString
  Title : GoString
  Desc : GoString
  Tags : Option (List GoString)
  Created : Time
  Replace : Bool
  Shared : Bool
  ToRead : Bool
  Hash : Option GoString
  Meta : Option GoString
  deriving DecidableEq, Repr

/-- Source `Tag`. -/
structure Tag where
  Name : GoString
  Count : Int
  deriving DecidableEq, Repr

/-- Source `Post`. -/
structure Post where
  Date : Time
  Count : Int
  deriving DecidableEq, Repr

/-- Source `NoteMetadata`. -/
structure NoteMetadata where
  ID : GoString
  Title : GoString
  Length : Int
  Hash : Option GoString
  Created : Time
  Updated : Time
  deriving DecidableEq, Repr

/-- Source `Note`: a `NoteMetadata` with the text. -/
structure Note extends NoteMetadata where
  Text : GoString
  deriving DecidableEq, Repr

/-- The zero value `Note{}`. -/
def Note.zero : Note := ⟨⟨[], [], 0, none, Time.zero, Time.zero⟩, []⟩

/-! ## Request parameters -/

/-- The loop `for _, t := range tags { g += t + "," }`. -/
def joinTags (tags : List GoString) : GoString :=
  tags.foldl (fun g t => g ++ (t ++ [','])) []

/-- Go `strings.Trim(s, cutset)` for a one-byte cutset: the leading and the
trailing occurrences of the byte are removed. -/
def trim (s : GoString) (c : Char) : GoString :=
  (s.rdropWhile (fun x => x = c)).dropWhile (fun x => x = c)

/-- Go `strings.Split(s, sep)` for a one-byte separator, with the piece
before the current position carried in `cur`. -/
def splitAux (sep : Char) : GoString → GoString → List GoString
  | [], cur => [cur]
  | c :: r, cur => if c = sep then cur :: splitAux sep r [] else splitAux sep r (cur ++ [c])

/-- Go `strings.Split(s, sep)` for a one-byte separator. -/
def split (s : GoString) (sep : Char) : List GoString := splitAux sep s []

/-- The parameters `Auth` sends. -/
def authVals (token : GoString) : Values :=
  Values.Set [] "auth_token".toList token

/-- The parameters `Add` sends. -/
def addVals (env : Env) (b : Bookmark) : Values :=
  let v : Values := []
  let v := Values.Set v "url".toList b.URL
  let v := Values.Set v "description".toList b.Title
  let v := if b.Desc ≠ [] then Values.Set v "extended".toList b.Desc else v
  let v := match b.Tags with
    | none => v
    | some tags => Values.Set v "tags".toList (trim (joinTags tags) ',')
  let dt :=
    if b.Created.IsZero then env.now.UTC.FormatRFC3339
    else b.Created.UTC.FormatRFC3339
  let v := Values.Set v "dt".toList dt
  let v := Values.Set v "replace".toList (boolToString b.Replace)
  let v := Values.Set v "shared".toList (boolToString b.Shared)
  Values.Set v "toread".toList (boolToString b.ToRead)

/-- The parameters `Del` sends. -/
def delVals (URL : GoString) : Values :=
  Values.Set [] "url".toList URL

/-- The parameters `Get` sends. -/
def getVals (dt : Time) (URL : GoString) (tags : Option (List GoString)) (meta : Bool) :
    Values :=
  let v : Values := []
  let v := if !dt.IsZero then Values.Set v "dt".toList dt.UTC.FormatRFC3339 else v
  let v := if URL ≠ [] then Values.Set v "url".toList URL else v
  let v := match tags with
    | none => v
    | some tags => Values.Set v "tag".toList (trim (joinTags tags) ',')
  if meta then Values.Set v "meta".toList "yes".toList
  else Values.Set v "meta".toList "no".toList

/-- The parameters `Dates` sends. -/
def datesVals (tags : Option (List GoString)) : Values :=
  let v : Values := []
  match tags with
  | none => v
  | some tags => Values.Set v "tag".toList (trim (joinTags tags) ',')

/-- The parameters `Recent` sends. -/
def recentVals (tags : Option (List GoString)) (count : Int) : Values :=
  let v : Values := []
  let v := match tags with
    | none => v
    | some tags => Values.Set v "tag".toList (trim (joinTags tags) ',')
  Values.Set v "count".toList (itoa count)

/-- The parameters `Bookmarks` sends. -/
def bookmarksVals (tags : Option (List GoString)) (offset count : Int)
    (start finish : Time) (meta : Bool) : Values :=
  let v : Values := []
  let v := match tags with
    | none => v
    | some tags => Values.Set v "tag".toList (trim (joinTags tags) ',')
  let v := Values.Set v "start".toList (itoa offset)
  let v := Values.Set v "results".toList (itoa count)
  let v := if !start.IsZero then Values.Set v "fromdt".toList start.UTC.FormatRFC3339 else v
  let v := if !finish.IsZero then Values.Set v "todt".toList finish.UTC.FormatRFC3339 else v
  if meta then Values.Set v "meta".toList "yes".toList
  else Values.Set v "meta".toList "no".toList

/-- The parameters `Suggest` sends. -/
def suggestVals (URL : GoString) : Values :=
  Values.Set [] "url".toList URL

/-- The parameters `DelTag` sends. -/
def delTagVals (tag : GoString) : Values :=
  Values.Set [] "tag".toList tag

/-- The parameters `RenTag` sends. -/
def renTagVals (oldTag newTag : GoString) : Values :=
  Values.Set (Values.Set [] "old".toList oldTag) "new".toList newTag

/-! ## Operations

Every operation returns a `Ret`; the ones that index or assert the type of a
decoded value return `Option (Ret _)`, with `none` for a panic. A nil `[]byte`
handed to a decoder is the empty input. -/

/-- Source `Auth`: the results, and the session after the call. -/
def Pinboard.Auth (env : Env) (p : Pinboard) (token : GoString) :
    Ret GoString × Pinboard :=
  let r := p.performRequest env "user/api_token".toList (some (authVals token))
  match r.err with
  | some err => (⟨[], some err, r.gets⟩, p)
  | none =>
    match decodeJSON env (r.val.getD []) with
    | (_, some err) => (⟨[], some err, r.gets⟩, p)
    | (j, none) =>
      (⟨strIndex j "result".toList, none, r.gets⟩, { p with token := token, authed := true })

/-- Source `LastUpdate`. -/
def Pinboard.LastUpdate (env : Env) (p : Pinboard) : Ret Time :=
  let r := p.performRequest env "posts/update".toList none
  match r.err with
  | some err => ⟨Time.zero, some err, r.gets⟩
  | none =>
    match decodeJSON env (r.val.getD []) with
    | (_, some err) => ⟨Time.zero, some err, r.gets⟩
    | (j, none) =>
      match env.parseRFC3339 (strIndex j "update_time".toList) with
      | none => ⟨Time.zero, some .timeParse, r.gets⟩
      | some t => ⟨t, none, r.gets⟩

/-- Source `Add`. A body that does not decode gives `false` with a nil
error, as the source returns there. -/
def Pinboard.Add (env : Env) (p : Pinboard) (b : Bookmark) : Ret Bool :=
  let r := p.performRequest env "posts/add".toList (some (addVals env b))
  match r.err with
  | some err => ⟨false, some err, r.gets⟩
  | none =>
    match decodeJSON env (r.val.getD []) with
    | (_, some _) => ⟨false, none, r.gets⟩
    | (j, none) =>
      if strIndex j "result_code".toList ≠ "done".toList then
        ⟨false, some (.new (strIndex j "result_code".toList)), r.gets⟩
      else ⟨true, none, r.gets⟩

/-- Source `Del`. -/
def Pinboard.Del (env : Env) (p : Pinboard) (URL : GoString) : Ret Bool :=
  let r := p.performRequest env "posts/delete".toList (some (delVals URL))
  match r.err with
  | some err => ⟨false, some err, r.gets⟩
  | none =>
    match decodeJSON env (r.val.getD []) with
    | (_, some err) => ⟨false, some err, r.gets⟩
    | (j, none) =>
      if strIndex j "result_code".toList ≠ "done".toList then
        ⟨false, some (.new (strIndex j "result_code".toList)), r.gets⟩
      else ⟨true, none, r.gets⟩

/-- The body of the loop over post objects in `Get`, `Recent` and
`Bookmarks`: one post object to a `Bookmark`; `none` is the panic of a
failed type assertion. -/
def decodePost (env : Env) (x : JSON) : Option Bookmark := do
  let p ← asMap (some x)
  let ts ← asString (mapGet p "time".toList)
  let t := match env.parseRFC3339 ts with
    | some t => t
    | none => Time.zero
  let href ← asString (mapGet p "href".toList)
  let description ← asString (mapGet p "description".toList)
  let extended ← asString (mapGet p "extended".toList)
  let tags ← asString (mapGet p "tags".toList)
  let shared ← asString (mapGet p "shared".toList)
  let toread ← asString (mapGet p "toread".toList)
  let hash ← asString (mapGet p "hash".toList)
  let pmeta ← asString (mapGet p "meta".toList)
  pure {
    URL := href
    Title := description
    Desc := extended
    Tags := some (split tags ' ')
    Created := t
    Replace := false
    Shared := stringToBool shared
    ToRead := stringToBool toread
    Hash := some hash
    Meta := some pmeta }

/-- Source `Get`. -/
def Pinboard.Get (env : Env) (p : Pinboard) (dt : Time) (URL : GoString)
    (tags : Option (List GoString)) (meta : Bool) : Option (Ret (Option (List Bookmark))) :=
  let r := p.performRequest env "posts/get".toList (some (getVals dt URL tags meta))
  match r.err with
  | some err => some ⟨none, some err, r.gets⟩
  | none =>
    match decodeJSONIFace env (r.val.getD []) with
    | (_, some err) => some ⟨none, some err, r.gets⟩
    | (j, none) => do
      let posts ← asList (ifaceIndex j "posts".toList)
      let bmarks ← posts.mapM (decodePost env)
      pure ⟨some bmarks, none, r.gets⟩

/-- The loop of `Dates` over the `dates` map, in the order of the bindings:
the outer `none` is the panic of `v.(string)`. -/
def datesLoop (env : Env) : List (GoString × JSON) → List Post →
    Option (Option (List Post) × Option GoError)
  | [], s => some (some s, none)
  | (k, v) :: r, s =>
    match env.parseDay k with
    | none => some (none, some .timeParse)
    | some w =>
      match asString (some v) with
      | none => none
      | some c => datesLoop env r (s ++ [⟨w, atoi c⟩])

/-- Source `Dates`. -/
def Pinboard.Dates (env : Env) (p : Pinboard) (tags : Option (List GoString)) :
    Option (Ret (Option (List Post))) :=
  let r := p.performRequest env "posts/dates".toList (some (datesVals tags))
  match r.err with
  | some err => some ⟨none, some err, r.gets⟩
  | none =>
    match decodeJSONIFace env (r.val.getD []) with
    | (_, some err) => some ⟨none, some err, r.gets⟩
    | (j, none) => do
      let d ← asMap (ifaceIndex j "dates".toList)
      let (s, err) ← datesLoop env d []
      pure ⟨s, err, r.gets⟩

/-- Source `Recent`. -/
def Pinboard.Recent (env : Env) (p : Pinboard) (tags : Option (List GoString))
    (count : Int) : Option (Ret (Option (List Bookmark))) :=
  let r := p.performRequest env "posts/recent".toList (some (recentVals tags count))
  match r.err with
  | some err => some ⟨none, some err, r.gets⟩
  | none =>
    match decodeJSONIFace env (r.val.getD []) with
    | (_, some err) => some ⟨none, some err, r.gets⟩
    | (j, none) => do
      let posts ← asList (ifaceIndex j "posts".toList)
      let bmarks ← posts.mapM (decodePost env)
      pure ⟨some bmarks, none, r.gets⟩

/-- Source `Bookmarks`. -/
def Pinboard.Bookmarks (env : Env) (p : Pinboard) (tags : Option (List GoString))
    (offset count : Int) (start finish : Time) (meta : Bool) :
    Option (Ret (Option (List Bookmark))) :=
  let r := p.performRequest env "posts/all".toList
    (some (bookmarksVals tags offset count start finish meta))
  match r.err with
  | some err => some ⟨none, some err, r.gets⟩
  | none =>
    match decodeJSONListIFace env (r.val.getD []) with
    | (_, some err) => some ⟨none, some err, r.gets⟩
    | (j, none) => do
      let bmarks ← (j.getD []).mapM (decodePost env)
      pure ⟨some bmarks, none, r.gets⟩

/-- The strings of one element of the suggestion array: the element is
asserted to be an object, its field `key` an array, each item a string. -/
def suggestList (x : JSON) (key : GoString) : Option (List GoString) := do
  let a ← asMap (some x)
  let b ← asList (mapGet a key)
  b.mapM fun t => asString (some t)

/-- Source `Suggest`: the popular and the recommended tags. -/
def Pinboard.Suggest (env : Env) (p : Pinboard) (URL : GoString) :
    Option (Ret (Option (List GoString) × Option (List GoString))) :=
  let r := p.performRequest env "posts/suggest".toList (some (suggestVals URL))
  match r.err with
  | some err => some ⟨(none, none), some err, r.gets⟩
  | none =>
    match decodeJSONListIFace env (r.val.getD []) with
    | (_, some err) => some ⟨(none, none), some err, r.gets⟩
    | (j, none) =>
      match j.getD [] with
      | j0 :: j1 :: _ => do
        let pop ← suggestList j0 "popular".toList
        let recd ← suggestList j1 "recommended".toList
        pure ⟨(some pop, some recd), none, r.gets⟩
      | _ => some ⟨(some [], some []), none, r.gets⟩

/-- Source `Tags`. -/
def Pinboard.Tags (env : Env) (p : Pinboard) : Ret (Option (List Tag)) :=
  let r := p.performRequest env "tags/get".toList none
  match r.err with
  | some err => ⟨none, some err, r.gets⟩
  | none =>
    match decodeJSON env (r.val.getD []) with
    | (_, some err) => ⟨none, some err, r.gets⟩
    | (j, none) => ⟨some ((j.getD []).map fun kv => ⟨kv.1, atoi kv.2⟩), none, r.gets⟩

/-- Source `DelTag`. -/
def Pinboard.DelTag (env : Env) (p : Pinboard) (tag : GoString) : Ret Bool :=
  let r := p.performRequest env "tags/delete".toList (some (delTagVals tag))
  match r.err with
  | some err => ⟨false, some err, r.gets⟩
  | none =>
    match decodeJSON env (r.val.getD []) with
    | (_, some err) => ⟨false, some err, r.gets⟩
    | (j, none) =>
      if strIndex j "result".toList ≠ "done".toList then
        ⟨false, some (.new (strIndex j "result".toList)), r.gets⟩
      else ⟨true, none, r.gets⟩

/-- Source `RenTag`. -/
def Pinboard.RenTag (env : Env) (p : Pinboard) (oldTag newTag : GoString) : Ret Bool :=
  let r := p.performRequest env "tags/rename".toList (some (renTagVals oldTag newTag))
  match r.err with
  | some err => ⟨false, some err, r.gets⟩
  | none =>
    match decodeJSON env (r.val.getD []) with
    | (_, some err) => ⟨false, some err, r.gets⟩
    | (j, none) =>
      if strIndex j "result".toList ≠ "done".toList then
        ⟨false, some (.new (strIndex j "result".toList)), r.gets⟩
      else ⟨true, none, r.gets⟩

/-- One iteration of the loop of `Notes`: element `i` of `notes` to a
`NoteMetadata`; `none` is a panic (index out of range, failed assertion). -/
def decodeNoteMeta (notes : List JSON) (i : Nat) : Option NoteMetadata := do
  let n ← asMap notes[i]?
  let id ← asString (mapGet n "id".toList)
  let title ← asString (mapGet n "title".toList)
  let length ← asString (mapGet n "length".toList)
  let hash ← asString (mapGet n "hash".toList)
  let created ← parseDateTime (← asString (mapGet n "created_at".toList))
  let updated ← parseDateTime (← asString (mapGet n "updated_at".toList))
  pure ⟨id, title, atoi length, some hash, created, updated⟩

/-- Source `Notes`. -/
def Pinboard.Notes (env : Env) (p : Pinboard) : Option (Ret (Option (List NoteMetadata))) :=
  let r := p.performRequest env "notes/list".toList none
  match r.err with
  | some err => some ⟨none, some err, r.gets⟩
  | none =>
    match decodeJSONIFace env (r.val.getD []) with
    | (_, some err) => some ⟨none, some err, r.gets⟩
    | (j, none) => do
      let count ← asInt (ifaceIndex j "count".toList)
      let notes ← asList (ifaceIndex j "notes".toList)
      let metas ← (List.range count.toNat).mapM (decodeNoteMeta notes)
      pure ⟨some metas, none, r.gets⟩

/-- Source `NoteID`. -/
def Pinboard.NoteID (env : Env) (p : Pinboard) (id : GoString) : Option (Ret Note) :=
  let r := p.performRequest env ("notes/".toList ++ id) none
  match r.err with
  | some err => some ⟨Note.zero, some err, r.gets⟩
  | none =>
    match decodeJSONIFace env (r.val.getD []) with
    | (_, some err) => some ⟨Note.zero, some err, r.gets⟩
    | (j, none) => do
      let nid ← asString (ifaceIndex j "id".toList)
      let title ← asString (ifaceIndex j "title".toList)
      let length ← asInt (ifaceIndex j "length".toList)
      let hash ← asString (ifaceIndex j "hash".toList)
      let created ← parseDateTime (← asString (ifaceIndex j "created_at".toList))
      let updated ← parseDateTime (← asString (ifaceIndex j "updated_at".toList))
      let text ← asString (ifaceIndex j "text".toList)
      pure ⟨⟨⟨nid, title, length, some hash, created, updated⟩, text⟩, none, r.gets⟩

/-! ## Sample servers

Two worlds taken from the tests of the package, used to instantiate the
theorems below. -/

/-- The body `startTestServer` sends for `/user/api_token/`. -/
def tokenBody : GoString := "\x7b\"result\":\"0123456789\"\x7d".toList

/-- A server in the manner of `startTestServer`: every request is answered
with status 200 and the body of `/user/api_token/`. -/
def testServer : Env where
  httpGet := fun _ => .response 200 tokenBody none
  statusText := fun c => if c = 200 then "OK".toList else []
  jsonParse := fun b =>
    if b = tokenBody then some (.obj [("result".toList, .str "0123456789".toList)]) else none
  parseRFC3339 := fun _ => none
  parseDay := fun _ => none
  now := Date 2015 7 2 17 3 45 0 .utc

/-- The server of `TestAuthFail`: every request is answered with
`http.Error(w, "Unauthorized", http.StatusUnauthorized)`. -/
def unauthorizedServer : Env where
  httpGet := fun _ => .response 401 "Unauthorized\n".toList none
  statusText := fun c => if c = 401 then "Unauthorized".toList else []
  jsonParse := fun _ => none
  parseRFC3339 := fun _ => none
  parseDay := fun _ => none
  now := Date 2015 7 2 17 3 45 0 .utc

/-- An authenticated session, as after `Auth("mango:0123456789")` against
the test server. -/
def authedSession : Pinboard := ⟨"mango:0123456789".toList, true⟩

/-- A server that answers every request with the given status and body.
`value` is the JSON value the body denotes (`none`: the body is not JSON);
the two layouts of `time.Parse` know the times and days that occur in the
responses of `startTestServer`. -/
def fixedServer (status : Int) (body : GoString) (value : Option JSON) : Env where
  httpGet := fun _ => .response status body none
  statusText := fun c =>
    if c = 200 then "OK".toList
    else if c = 201 then "Created".toList
    else if c = 401 then "Unauthorized".toList
    else if c = 500 then "Internal Server Error".toList
    else []
  jsonParse := fun b => if b = body then value else none
  parseRFC3339 := fun s =>
    if s = "2015-07-02T07:56:40Z".toList then some (Date 2015 7 2 7 56 40 0 .utc)
    else if s = "2015-07-02T17:03:45Z".toList then some (Date 2015 7 2 17 3 45 0 .utc)
    else none
  parseDay := fun s =>
    if s = "2015-07-03".toList then some (Date 2015 7 3 0 0 0 0 .utc)
    else if s = "2015-07-02".toList then some (Date 2015 7 2 0 0 0 0 .utc)
    else if s = "2015-07-01".toList then some (Date 2015 7 1 0 0 0 0 .utc)
    else none
  now := Date 2015 7 2 17 3 45 0 .utc

/-- The body of `TestDoForResponseData`, which is not JSON. -/
def garbledBody : GoString := "\x7bhello:world\x7d".toList

/-- A bookmark to add, in the manner of `TestAdd`. -/
def sampleBookmark : Bookmark where
  URL := "http://www.food.com/".toList
  Title := "Foody".toList
  Desc := "some food website".toList
  Tags := some ["zza".toList, "zzb".toList, "zzc".toList]
  Created := Date 2015 7 2 17 3 45 0 .utc
  Replace := true
  Shared := true
  ToRead := true
  Hash := none
  Meta := none

/-- The `posts/dates` response of `startTestServer`, as a JSON value. -/
def datesValue : JSON :=
  .obj [("user".toList, .str "mango".toList), ("tag".toList, .str "news".toList),
    ("dates".toList, .obj [("2015-07-03".toList, .str "4".toList),
      ("2015-07-02".toList, .str "2".toList), ("2015-07-01".toList, .str "1".toList)])]

/-- The `posts/dates` response of `startTestServer`, as text. -/
def datesBody : GoString :=
  ("\x7b\"user\":\"mango\",\"tag\":\"news\",\"dates\":\x7b\"2015-07-03\":\"4\"," ++
    "\"2015-07-02\":\"2\",\"2015-07-01\":\"1\"\x7d\x7d").toList

/-- A tag-suggestion response with a third element, as a JSON value. -/
def suggestValue : JSON :=
  .arr [.obj [("popular".toList, .arr [.str "security".toList])],
    .obj [("recommended".toList, .arr [.str "privacy".toList, .str "security".toList])],
    .obj [("other".toList, .arr [.str "ignored".toList])]]

/-- The text of `suggestValue`. -/
def suggestBody : GoString :=
  ("[\x7b\"popular\":[\"security\"]\x7d,\x7b\"recommended\":[\"privacy\",\"security\"]\x7d," ++
    "\x7b\"other\":[\"ignored\"]\x7d]").toList

/-- A note object of a `notes/list` response. -/
def noteValue (id hash title length : String) : JSON :=
  .obj [("id".toList, .str id.toList), ("hash".toList, .str hash.toList),
    ("title".toList, .str title.toList), ("length".toList, .str length.toList),
    ("created_at".toList, .str "2015-04-20 13:51:58".toList),
    ("updated_at".toList, .str "2015-04-20 13:51:58".toList)]

/-- A `notes/list` response whose `count` is 2 and whose `notes` array has
three elements: the two of `startTestServer` and one more. -/
def notesValue : JSON :=
  .obj [("count".toList, .num 2),
    ("notes".toList, .arr [
      noteValue "364bd4c30a2b9654d0e1" "b7c4cd9c55bb946c0216" "shopping list" "26",
      noteValue "364bd9876a2b96543453" "b7c4876y55bb946c0216" "coding notes" "42",
      noteValue "364bd0000a2b96540000" "b7c4000055bb946c0000" "third note" "7"])]

/-- A stand-in for the text of `notesValue`. -/
def notesBody : GoString := "notes/list response".toList

/-- A post object with the seven fields `href`, `description`, `extended`,
`tags`, `time`, `shared`, `toread`, followed by the members `extra`. -/
def postValue (extra : List (GoString × JSON)) : JSON :=
  .obj ([("href".toList, .str "http://aaa.com/".toList),
    ("description".toList, .str "AAA".toList),
    ("extended".toList, .str "AAA".toList),
    ("time".toList, .str "2015-07-02T07:56:40Z".toList),
    ("shared".toList, .str "no".toList),
    ("toread".toList, .str "yes".toList),
    ("tags".toList, .str "aazzaa bbzzbb".toList)] ++ extra)

/-- The members `meta` and `hash` of the first post of `startTestServer`. -/
def metaAndHash : List (GoString × JSON) :=
  [("meta".toList, .str "0feee4bcd1ee2724ef8b266c8baaa29c".toList),
   ("hash".toList, .str "d67b75105b042e87b54342de46aca979".toList)]

/-- A stand-in for the text of a `posts/get` response. -/
def postsBody : GoString := "posts response".toList

/-- The record of the first note of `startTestServer`. -/
def firstNote : NoteMetadata where
  ID := "364bd4c30a2b9654d0e1".toList
  Title := "shopping list".toList
  Length := 26
  Hash := some "b7c4cd9c55bb946c0216".toList
  Created := Date 2015 4 20 13 51 58 0 .utc
  Updated := Date 2015 4 20 13 51 58 0 .utc

/-- A server like `fixedServer` with status 200 on which `time.Parse` also
knows the wire time `2015-07-02T19:03:45+02:00`: the instant 17:03:45 UTC,
in the zone two hours east of UTC that Go records for a parsed offset. -/
def offsetServer (body : GoString) (value : Option JSON) : Env :=
  { fixedServer 200 body value with
    parseRFC3339 := fun s =>
      if s = "2015-07-02T19:03:45+02:00".toList then
        some (Date 2015 7 2 19 3 45 0 (.fixed 7200))
      else (fixedServer 200 body value).parseRFC3339 s }

/-- The first post of `startTestServer` with its time written with the
offset `+02:00`. -/
def offsetPostValue : JSON :=
  .obj [("href".toList, .str "http://aaa.com/".toList),
    ("description".toList, .str "AAA".toList),
    ("extended".toList, .str "AAA".toList),
    ("meta".toList, .str "0feee4bcd1ee2724ef8b266c8baaa29c".toList),
    ("hash".toList, .str "d67b75105b042e87b54342de46aca979".toList),
    ("time".toList, .str "2015-07-02T19:03:45+02:00".toList),
    ("shared".toList, .str "no".toList),
    ("toread".toList, .str "yes".toList),
    ("tags".toList, .str "aazzaa bbzzbb".toList)]

/-- A `posts/update` response whose time is written with the offset
`+02:00`, as a JSON value. -/
def offsetUpdateValue : JSON :=
  .obj [("update_time".toList, .str "2015-07-02T19:03:45+02:00".toList)]

/-- A stand-in for the text of `offsetUpdateValue`. -/
def offsetUpdateBody : GoString := "posts/update response".toList

/-- The first bookmark `TestGet` expects: the decoding of
`postValue metaAndHash`. -/
def firstBookmark : Bookmark where
  URL := "http://aaa.com/".toList
  Title := "AAA".toList
  Desc := "AAA".toList
  Tags := some ["aazzaa".toList, "bbzzbb".toList]
  Created := Date 2015 7 2 7 56 40 0 .utc
  Replace := false
  Shared := false
  ToRead := true
  Hash := some "d67b75105b042e87b54342de46aca979".toList
  Meta := some "0feee4bcd1ee2724ef8b266c8baaa29c".toList

/-- A post object whose `tags` string is empty. -/
def untaggedPostValue : JSON :=
  .obj [("href".toList, .str "https://bbb.org/".toList),
    ("description".toList, .str "BBB".toList),
    ("extended".toList, .str "BBB".toList),
    ("meta".toList, .str "aca07c3d2676549f454129ffc47bdd3d".toList),
    ("hash".toList, .str "0356c24cf4856410e04a82289e57d79a".toList),
    ("time".toList, .str "2015-07-02T17:03:45Z".toList),
    ("shared".toList, .str "no".toList),
    ("toread".toList, .str "yes".toList),
    ("tags".toList, .str [])]

/-! ## Readings of decoded values

Total readings of a decoded value, used to state what an operation
returns on a well-typed response. -/

/-- The string a JSON value holds; the empty string for any other value. -/
def JSON.strOr : JSON → GoString
  | .str s => s
  | _ => []

/-- The string field `k` of a decoded object; the empty string when the
field is absent or not a string. -/
def fieldStr (n : GoMap JSON) (k : GoString) : GoString :=
  match mapGet n k with
  | some x => x.strOr
  | none => []

/-- The `NoteMetadata` that the fields of a note object spell out. -/
def noteFields (x : JSON) : NoteMetadata :=
  let n := (asMap (some x)).getD []
  { ID := fieldStr n "id".toList
    Title := fieldStr n "title".toList
    Length := atoi (fieldStr n "length".toList)
    Hash := some (fieldStr n "hash".toList)
    Created := (parseDateTime (fieldStr n "created_at".toList)).getD Time.zero
    Updated := (parseDateTime (fieldStr n "updated_at".toList)).getD Time.zero }

/-- A note object is well typed: an object with the six string fields. -/
def WellTypedNote (x : JSON) : Prop :=
  ∃ members, x = .obj members ∧
    ∀ k ∈ ["id".toList, "title".toList, "length".toList, "hash".toList,
        "created_at".toList, "updated_at".toList],
      ∃ s, mapGet (mkMap members) k = some (.str s)

/-- The `Post` of one binding of the `dates` object. -/
def postOfBinding (env : Env) (kv : GoString × JSON) : Post :=
  ⟨(env.parseDay kv.1).getD Time.zero, atoi kv.2.strOr⟩

/-! ## Primitive codecs -/

/-- C1: at the input `2010-12-11 03:46:56` the source reads the month from
`dt[6:7]`, the single byte `2`, so `parseDateTime` returns 11 February 2010,
03:46:56 UTC, and not the time 11 December 2010, 03:46:56 UTC that the string
denotes. -/
theorem parseDateTime_december_reads_february :
    parseDateTime "2010-12-11 03:46:56".toList = some (Date 2010 2 11 3 46 56 0 .utc) ∧
    (parseDateTime "2010-12-11 03:46:56".toList).map Time.civil
      = some ⟨2010, 2, 11, 3, 46, 56⟩ ∧
    (Date 2010 12 11 3 46 56 0 .utc).civil = ⟨2010, 12, 11, 3, 46, 56⟩ ∧
    parseDateTime "2010-12-11 03:46:56".toList ≠ some (Date 2010 12 11 3 46 56 0 .utc) := by
  refine ⟨rfl, by decide, by decide, by decide⟩

/-- C2: for every string whose length is not 19, `parseDateTime` returns
(without panic) the zero time, for which `IsZero` holds. -/
theorem parseDateTime_wrong_length (dt : GoString) (h : dt.length ≠ 19) :
    parseDateTime dt = some Time.zero ∧ Time.zero.IsZero = true := by
  refine ⟨?_, by decide⟩
  unfold parseDateTime
  rw [if_pos h]

theorem parseDateTime_wrong_length_witness :
    parseDateTime "2010-02-11".toList = some Time.zero ∧ Time.zero.IsZero = true :=
  parseDateTime_wrong_length "2010-02-11".toList (by decide)

/-- C3: `boolToString (stringToBool s) = s` for `s` one of `yes`, `no`;
`stringToBool (boolToString b) = b` for every `b`; and `stringToBool s` is
false for every `s` other than `yes`. -/
theorem stringToBool_boolToString_inverse :
    (∀ s : GoString, s = "yes".toList ∨ s = "no".toList →
      boolToString (stringToBool s) = s) ∧
    (∀ b : Bool, stringToBool (boolToString b) = b) ∧
    (∀ s : GoString, s ≠ "yes".toList → stringToBool s = false) := by
  refine ⟨?_, ?_, ?_⟩
  · intro s hs
    rcases hs with rfl | rfl <;> decide
  · intro b
    cases b <;> decide
  · intro s hs
    unfold stringToBool
    rw [if_neg hs]

theorem stringToBool_boolToString_inverse_witness :
    boolToString (stringToBool "no".toList) = "no".toList ∧
    stringToBool (boolToString true) = true ∧
    stringToBool "maybe".toList = false :=
  ⟨stringToBool_boolToString_inverse.1 "no".toList (Or.inr rfl),
   stringToBool_boolToString_inverse.2.1 true,
   stringToBool_boolToString_inverse.2.2 "maybe".toList (by decide)⟩

/-! ## Session guard -/

/-- The method of `NoteID` is never the one of `Auth`. -/
theorem notes_method_ne (id : GoString) :
    "notes/".toList ++ id ≠ "user/api_token".toList := by
  intro h
  have h1 : some 'n' = some 'u' := congrArg List.head? h
  exact absurd h1 (by decide)

/-- An unauthenticated session refuses every method but the one of `Auth`,
without calling `do`. -/
theorem performRequest_unauthed (env : Env) (p : Pinboard) (method : GoString)
    (vals : Option Values) (hp : p.authed = false)
    (hm : method ≠ "user/api_token".toList) :
    p.performRequest env method vals
      = ⟨none, some (.new "API not authorized.".toList), []⟩ := by
  unfold Pinboard.performRequest
  rw [if_pos]
  exact ⟨by simp [hp], hm⟩

/-- C4: for a session whose authenticated flag is false, each of
`LastUpdate`, `Add`, `Del`, `Get`, `Dates`, `Recent`, `Bookmarks`, `Suggest`,
`Tags`, `DelTag`, `RenTag`, `Notes` and `NoteID` (any id) returns, without
panic, its zero-value result with the error `API not authorized.`, and `do`
is invoked zero times. -/
theorem unauthenticated_operations_refused (env : Env) (p : Pinboard)
    (hp : p.authed = false) :
    (p.LastUpdate env = ⟨Time.zero, some (.new "API not authorized.".toList), []⟩) ∧
    (∀ b, p.Add env b = ⟨false, some (.new "API not authorized.".toList), []⟩) ∧
    (∀ URL, p.Del env URL = ⟨false, some (.new "API not authorized.".toList), []⟩) ∧
    (∀ dt URL tags meta, p.Get env dt URL tags meta
      = some ⟨none, some (.new "API not authorized.".toList), []⟩) ∧
    (∀ tags, p.Dates env tags
      = some ⟨none, some (.new "API not authorized.".toList), []⟩) ∧
    (∀ tags count, p.Recent env tags count
      = some ⟨none, some (.new "API not authorized.".toList), []⟩) ∧
    (∀ tags offset count start finish meta,
      p.Bookmarks env tags offset count start finish meta
      = some ⟨none, some (.new "API not authorized.".toList), []⟩) ∧
    (∀ URL, p.Suggest env URL
      = some ⟨(none, none), some (.new "API not authorized.".toList), []⟩) ∧
    (p.Tags env = ⟨none, some (.new "API not authorized.".toList), []⟩) ∧
    (∀ tag, p.DelTag env tag = ⟨false, some (.new "API not authorized.".toList), []⟩) ∧
    (∀ oldTag newTag, p.RenTag env oldTag newTag
      = ⟨false, some (.new "API not authorized.".toList), []⟩) ∧
    (p.Notes env = some ⟨none, some (.new "API not authorized.".toList), []⟩) ∧
    (∀ id, p.NoteID env id
      = some ⟨Note.zero, some (.new "API not authorized.".toList), []⟩) := by
  refine ⟨?_, ?_, ?_, ?_, ?_, ?_, ?_, ?_, ?_, ?_, ?_, ?_, ?_⟩
  · unfold Pinboard.LastUpdate
    rw [performRequest_unauthed env p _ _ hp (by decide)]
  · intro b
    unfold Pinboard.Add
    rw [performRequest_unauthed env p _ _ hp (by decide)]
  · intro URL
    unfold Pinboard.Del
    rw [performRequest_unauthed env p _ _ hp (by decide)]
  · intro dt URL tags meta
    unfold Pinboard.Get
    rw [performRequest_unauthed env p _ _ hp (by decide)]
  · intro tags
    unfold Pinboard.Dates
    rw [performRequest_unauthed env p _ _ hp (by decide)]
  · intro tags count
    unfold Pinboard.Recent
    rw [performRequest_unauthed env p _ _ hp (by decide)]
  · intro tags offset count start finish meta
    unfold Pinboard.Bookmarks
    rw [performRequest_unauthed env p _ _ hp (by decide)]
  · intro URL
    unfold Pinboard.Suggest
    rw [performRequest_unauthed env p _ _ hp (by decide)]
  · unfold Pinboard.Tags
    rw [performRequest_unauthed env p _ _ hp (by decide)]
  · intro tag
    unfold Pinboard.DelTag
    rw [performRequest_unauthed env p _ _ hp (by decide)]
  · intro oldTag newTag
    unfold Pinboard.RenTag
    rw [performRequest_unauthed env p _ _ hp (by decide)]
  · unfold Pinboard.Notes
    rw [performRequest_unauthed env p _ _ hp (by decide)]
  · intro id
    unfold Pinboard.NoteID
    rw [performRequest_unauthed env p _ _ hp (notes_method_ne id)]

theorem unauthenticated_operations_refused_witness :
    New.authed = false ∧
    New.LastUpdate testServer = ⟨Time.zero, some (.new "API not authorized.".toList), []⟩ ∧
    New.NoteID testServer "1234".toList
      = some ⟨Note.zero, some (.new "API not authorized.".toList), []⟩ :=
  ⟨rfl, (unauthenticated_operations_refused testServer New rfl).1,
   (unauthenticated_operations_refused testServer New rfl).2.2.2.2.2.2.2.2.2.2.2.2
     "1234".toList⟩

/-! ## Authentication -/

/-- C5: whenever `Auth` returns an error it returns the empty string and
leaves the session (stored token and authenticated flag) as it was before
the call; so a fresh session from `New` keeps the empty token and stays
unauthenticated. -/
theorem Auth_failure_atomic (env : Env) (p : Pinboard) (token : GoString)
    (h : (p.Auth env token).1.err ≠ none) :
    (p.Auth env token).1.val = [] ∧ (p.Auth env token).2 = p ∧
    (p = New → (p.Auth env token).2.token = [] ∧ (p.Auth env token).2.authed = false) := by
  have key : (p.Auth env token).1.val = [] ∧ (p.Auth env token).2 = p := by
    revert h
    unfold Pinboard.Auth
    cases p.performRequest env "user/api_token".toList (some (authVals token)) with
    | mk val err gets =>
      cases err with
      | some e => intro _; exact ⟨rfl, rfl⟩
      | none =>
        dsimp only
        rcases decodeJSON env (val.getD []) with ⟨j, _ | e⟩
        · intro h; exact absurd rfl h
        · intro _; exact ⟨rfl, rfl⟩
  refine ⟨key.1, key.2, ?_⟩
  intro hp
  rw [key.2, hp]
  exact ⟨rfl, rfl⟩

theorem Auth_failure_atomic_witness :
    (New.Auth unauthorizedServer "bad:token".toList).1.err
      = some (.new "HTTP 401 Unauthorized".toList) ∧
    (New.Auth unauthorizedServer "bad:token".toList).1.val = [] ∧
    (New.Auth unauthorizedServer "bad:token".toList).2 = New :=
  ⟨by decide,
   (Auth_failure_atomic unauthorizedServer New "bad:token".toList (by decide)).1,
   (Auth_failure_atomic unauthorizedServer New "bad:token".toList (by decide)).2.1⟩

/-- C6: when `do` returns a body (for the URL `Auth` requests) and the body
decodes as a flat string map `m`, `Auth token` stores exactly `token`, sets
the authenticated flag, and returns `m["result"]` (the empty string when the
key is absent) with a nil error. -/
theorem Auth_success (env : Env) (p : Pinboard) (token body : GoString)
    (m : GoMap GoString)
    (hdo : doGet env (p.makeURL "user/api_token".toList (some (authVals token)))
      = (some body, none))
    (hdec : decodeJSON env body = (some m, none)) :
    (p.Auth env token).1.val = (mapGet m "result".toList).getD [] ∧
    (p.Auth env token).1.err = none ∧
    (p.Auth env token).2 = ⟨token, true⟩ := by
  have hreq : p.performRequest env "user/api_token".toList (some (authVals token))
      = ⟨some body, none, [p.makeURL "user/api_token".toList (some (authVals token))]⟩ := by
    unfold Pinboard.performRequest
    rw [if_neg (by simp)]
    dsimp only
    rw [hdo]
  unfold Pinboard.Auth
  rw [hreq]
  dsimp only [Option.getD]
  rw [hdec]
  exact ⟨rfl, rfl, rfl⟩

theorem Auth_success_witness :
    (New.Auth testServer "mango:0123456789".toList).1.val = "0123456789".toList ∧
    (New.Auth testServer "mango:0123456789".toList).1.err = none ∧
    (New.Auth testServer "mango:0123456789".toList).2 = ⟨"mango:0123456789".toList, true⟩ :=
  Auth_success testServer New "mango:0123456789".toList tokenBody
    [("result".toList, "0123456789".toList)] (by decide) (by decide)

/-! ## Request construction -/

theorem mapGet_mapSet {β : Type} (m : GoMap β) (k k1 : GoString) (x : β) :
    mapGet (mapSet m k x) k1 = if k = k1 then some x else mapGet m k1 := by
  induction m with
  | nil => simp [mapSet, mapGet]
  | cons e r ih =>
    obtain ⟨k0, y⟩ := e
    by_cases h0 : k0 = k
    · subst h0
      by_cases h1 : k0 = k1 <;> simp [mapSet, mapGet, h1]
    · by_cases h1 : k0 = k1
      · subst h1
        have h2 : ¬ k = k0 := fun h => h0 h.symm
        simp [mapSet, mapGet, h0, h2]
      · simp [mapSet, mapGet, h0, h1, ih]

theorem mapGet_eq_none {β : Type} (m : GoMap β) (k : GoString)
    (h : k ∉ m.map Prod.fst) : mapGet m k = none := by
  induction m with
  | nil => rfl
  | cons e r ih =>
    obtain ⟨k0, y⟩ := e
    simp only [List.map_cons, List.mem_cons, not_or] at h
    have h0 : ¬ k0 = k := fun h1 => h.1 h1.symm
    simp [mapGet, h0, ih h.2]

theorem filter_key_flatMap (ks : List GoString) (hnd : ks.Nodup)
    (f : GoString → List GoString) (K : GoString) :
    (ks.flatMap fun k => (f k).map fun x => (k, x)).filter (fun e => e.1 = K)
      = if K ∈ ks then (f K).map (fun x => (K, x)) else [] := by
  induction ks with
  | nil => simp
  | cons k r ih =>
    rw [List.nodup_cons] at hnd
    rw [List.flatMap_cons, List.filter_append, ih hnd.2]
    by_cases hk : k = K
    · subst hk
      have h1 : ((f k).map fun x => (k, x)).filter (fun e => e.1 = k)
          = (f k).map fun x => (k, x) := by
        rw [List.filter_eq_self]
        intro e he
        rw [List.mem_map] at he
        obtain ⟨x, _, rfl⟩ := he
        simp
      rw [h1, if_neg hnd.1]
      simp
    · have h1 : ((f k).map fun x => (k, x)).filter (fun e => e.1 = K) = [] := by
        rw [List.filter_eq_nil_iff]
        intro e he
        rw [List.mem_map] at he
        obtain ⟨x, _, rfl⟩ := he
        simp [hk]
      have h2 : (K ∈ k :: r) ↔ K ∈ r := by
        rw [List.mem_cons]
        exact ⟨fun h => h.resolve_left (fun h3 => hk h3.symm), Or.inr⟩
      rw [h1, List.nil_append]
      by_cases hr : K ∈ r
      · rw [if_pos hr, if_pos (h2.2 hr)]
      · rw [if_neg hr, if_neg (fun h => hr (h2.1 h))]

/-- The entries `Encode` writes for one key are the values the map holds for
that key, in their order. -/
theorem entries_filter_key (v : Values) (K : GoString) :
    (Values.entries v).filter (fun e => e.1 = K)
      = ((mapGet v K).getD []).map (fun x => (K, x)) := by
  unfold Values.entries
  have hperm := List.perm_insertionSort (fun a b => strLe a b = true) (mapKeys v)
  have hnd : ((mapKeys v).insertionSort (fun a b => strLe a b = true)).Nodup :=
    hperm.nodup_iff.2 (List.nodup_dedup _)
  rw [filter_key_flatMap _ hnd]
  by_cases hK : K ∈ (mapKeys v).insertionSort (fun a b => strLe a b = true)
  · rw [if_pos hK]
  · rw [if_neg hK]
    have h1 : K ∉ v.map Prod.fst := by
      intro h
      exact hK (hperm.mem_iff.2 (List.mem_dedup.2 h))
    rw [mapGet_eq_none v K h1]
    rfl

theorem sprintf_baseURL (method query : GoString) :
    sprintf baseURL [method, query]
      = "https://api.pinboard.in/v1/".toList ++ method ++ "/?".toList ++ query := by
  simp [baseURL, sprintf]

theorem makeURLVals_eq (p : Pinboard) (vals : Option Values) :
    p.makeURLVals vals =
      if Values.Get (vals.getD []) "auth_token".toList = [] then
        Values.Set (Values.Set (vals.getD []) "format".toList "json".toList)
          "auth_token".toList p.token
      else Values.Set (vals.getD []) "format".toList "json".toList := by
  have hget : ∀ v : Values,
      Values.Get (Values.Set v "format".toList "json".toList) "auth_token".toList
        = Values.Get v "auth_token".toList := by
    intro v
    unfold Values.Get Values.Set
    rw [mapGet_mapSet, if_neg (by decide)]
  cases vals with
  | none => simp only [Pinboard.makeURLVals, hget, Option.getD]
  | some v => simp only [Pinboard.makeURLVals, hget, Option.getD]

/-- C7 (as amended): for every method and every parameter set (nil
included) the URL of `makeURL` is the base URL with the method and the
encoded query; the query has exactly one `format` entry, `format=json`; when
the parameter set has no `auth_token` value or its first one is empty, the
query has exactly one `auth_token` entry, holding the session's stored
token; when the parameter set has exactly one `auth_token` value and it is
not empty, the query has exactly one `auth_token` entry, holding that
value. -/
theorem makeURL_query (p : Pinboard) (method : GoString) (vals : Option Values) :
    p.makeURL method vals
      = "https://api.pinboard.in/v1/".toList ++ method ++ "/?".toList
          ++ Values.Encode (p.makeURLVals vals) ∧
    (Values.entries (p.makeURLVals vals)).filter (fun e => e.1 = "format".toList)
      = [("format".toList, "json".toList)] ∧
    (Values.Get (vals.getD []) "auth_token".toList = [] →
      (Values.entries (p.makeURLVals vals)).filter (fun e => e.1 = "auth_token".toList)
        = [("auth_token".toList, p.token)]) ∧
    (∀ a : GoString, mapGet (vals.getD []) "auth_token".toList = some [a] → a ≠ [] →
      (Values.entries (p.makeURLVals vals)).filter (fun e => e.1 = "auth_token".toList)
        = [("auth_token".toList, a)]) := by
  refine ⟨sprintf_baseURL _ _, ?_, ?_, ?_⟩
  · rw [entries_filter_key, makeURLVals_eq]
    by_cases h : Values.Get (vals.getD []) "auth_token".toList = []
    · rw [if_pos h]
      unfold Values.Set
      rw [mapGet_mapSet, if_neg (by decide), mapGet_mapSet, if_pos rfl]
      rfl
    · rw [if_neg h]
      unfold Values.Set
      rw [mapGet_mapSet, if_pos rfl]
      rfl
  · intro h
    rw [entries_filter_key, makeURLVals_eq, if_pos h]
    unfold Values.Set
    rw [mapGet_mapSet, if_pos rfl]
    rfl
  · intro a ha hne
    have h : ¬ Values.Get (vals.getD []) "auth_token".toList = [] := by
      unfold Values.Get
      rw [ha]
      exact hne
    rw [entries_filter_key, makeURLVals_eq, if_neg h]
    unfold Values.Set
    rw [mapGet_mapSet, if_neg (by decide), ha]
    rfl

theorem makeURL_query_witness :
    (Values.entries (New.makeURLVals (some [("auth_token".toList, ["hello:1234".toList])]))).filter
        (fun e => e.1 = "auth_token".toList)
      = [("auth_token".toList, "hello:1234".toList)] ∧
    (Values.entries ((⟨"mango:1234".toList, false⟩ : Pinboard).makeURLVals none)).filter
        (fun e => e.1 = "auth_token".toList)
      = [("auth_token".toList, "mango:1234".toList)] ∧
    (⟨"mango:1234".toList, false⟩ : Pinboard).makeURL "posts/all".toList none
      = "https://api.pinboard.in/v1/posts/all/?auth_token=mango%3A1234&format=json".toList :=
  ⟨(makeURL_query New "posts/all".toList
      (some [("auth_token".toList, ["hello:1234".toList])])).2.2.2
      "hello:1234".toList rfl (by decide),
   (makeURL_query ⟨"mango:1234".toList, false⟩ "posts/all".toList none).2.2.1 rfl,
   by decide⟩

/-- C7 fails as stated: a parameter set that holds the `auth_token` entry
with the empty value gets the session's stored token in the URL, not its
own value; and a parameter set that holds two `auth_token` values gets two
`auth_token` entries in the URL. -/
theorem makeURL_auth_token_counterexample :
    mapGet ([("auth_token".toList, [[]])] : Values) "auth_token".toList = some [[]] ∧
    (Values.entries ((⟨"mango:1234".toList, true⟩ : Pinboard).makeURLVals
        (some [("auth_token".toList, [[]])]))).filter (fun e => e.1 = "auth_token".toList)
      = [("auth_token".toList, "mango:1234".toList)] ∧
    (⟨"mango:1234".toList, true⟩ : Pinboard).makeURL "posts/all".toList
        (some [("auth_token".toList, [[]])])
      = "https://api.pinboard.in/v1/posts/all/?auth_token=mango%3A1234&format=json".toList ∧
    (⟨"mango:1234".toList, true⟩ : Pinboard).makeURL "posts/all".toList
        (some [("auth_token".toList, ["a".toList, "b".toList])])
      = "https://api.pinboard.in/v1/posts/all/?auth_token=a&auth_token=b&format=json".toList := by
  decide

/-! ## Tag lists -/

theorem mapGet_Set (v : Values) (k k1 x : GoString) :
    mapGet (Values.Set v k x) k1 = if k = k1 then some [x] else mapGet v k1 :=
  mapGet_mapSet v k k1 [x]

theorem joinTags_eq (tags : List GoString) :
    joinTags tags = tags.flatMap (fun t => t ++ [',']) := by
  have h : ∀ (ts : List GoString) (g : GoString),
      ts.foldl (fun g t => g ++ (t ++ [','])) g = g ++ ts.flatMap (fun t => t ++ [',']) := by
    intro ts
    induction ts with
    | nil => intro g; simp
    | cons t r ih => intro g; simp [ih]
  simpa [joinTags] using h tags []

theorem intercalate_cons_cons (sep t u : GoString) (r : List GoString) :
    List.intercalate sep (t :: u :: r) = t ++ sep ++ List.intercalate sep (u :: r) := by
  simp [List.intercalate, List.intersperse]

theorem flatMap_comma_eq (tags : List GoString) (hne : tags ≠ []) :
    tags.flatMap (fun t => t ++ [',']) = List.intercalate [','] tags ++ [','] := by
  induction tags with
  | nil => exact absurd rfl hne
  | cons t r ih =>
    cases r with
    | nil => simp [List.intercalate, List.intersperse]
    | cons u r1 =>
      rw [List.flatMap_cons, ih (by simp), intercalate_cons_cons]
      simp

/-- The first and the last byte of the comma-joined form of a non-empty
list of non-empty comma-free tags exist and are not commas. -/
theorem intercalate_ends (tags : List GoString) (hne : tags ≠ [])
    (hgood : ∀ t ∈ tags, t ≠ [] ∧ ',' ∉ t) :
    (∃ a, (List.intercalate [','] tags).head? = some a ∧ a ≠ ',') ∧
    (∃ a, (List.intercalate [','] tags).getLast? = some a ∧ a ≠ ',') := by
  induction tags with
  | nil => exact absurd rfl hne
  | cons t r ih =>
    have ht := hgood t (List.mem_cons_self _ _)
    have hhead : ∃ a, t.head? = some a ∧ a ≠ ',' := by
      cases t with
      | nil => exact absurd rfl ht.1
      | cons a t1 =>
        refine ⟨a, rfl, ?_⟩
        intro h
        exact ht.2 (h ▸ List.mem_cons_self _ _)
    cases r with
    | nil =>
      have hX : List.intercalate [','] [t] = t := by simp [List.intercalate, List.intersperse]
      rw [hX]
      refine ⟨hhead, ?_⟩
      have hl : t.getLast? = some (t.getLast ht.1) := List.getLast?_eq_getLast _ _
      refine ⟨_, hl, ?_⟩
      intro h
      exact ht.2 (h ▸ List.getLast_mem ht.1)
    | cons u r1 =>
      have ih1 := ih (by simp) (fun x hx => hgood x (List.mem_cons_of_mem _ hx))
      rw [intercalate_cons_cons]
      obtain ⟨a, ha, hac⟩ := hhead
      obtain ⟨b, hb, hbc⟩ := ih1.2
      refine ⟨⟨a, ?_, hac⟩, ⟨b, ?_, hbc⟩⟩
      · simp [List.head?_append, ha]
      · rw [List.getLast?_append, hb]
        rfl

theorem dropWhile_of_head (p : Char → Bool) (l : GoString)
    (h : ∀ a, l.head? = some a → p a = false) : l.dropWhile p = l := by
  cases l with
  | nil => rfl
  | cons a r => simp [List.dropWhile, h a rfl]

theorem rdropWhile_of_last (p : Char → Bool) (l : GoString)
    (h : ∀ a, l.getLast? = some a → p a = false) : l.rdropWhile p = l := by
  unfold List.rdropWhile
  rw [dropWhile_of_head p l.reverse (by simpa using h), List.reverse_reverse]

theorem trim_joinTags (tags : List GoString) (hne : tags ≠ [])
    (hgood : ∀ t ∈ tags, t ≠ [] ∧ ',' ∉ t) :
    trim (joinTags tags) ',' = List.intercalate [','] tags := by
  obtain ⟨⟨a, ha, hac⟩, ⟨b, hb, hbc⟩⟩ := intercalate_ends tags hne hgood
  unfold trim
  rw [joinTags_eq, flatMap_comma_eq tags hne, List.rdropWhile_concat_pos _ _ _ (by simp),
    rdropWhile_of_last, dropWhile_of_head]
  · intro x hx
    rw [ha] at hx
    cases hx
    simpa using hac
  · intro x hx
    rw [hb] at hx
    cases hx
    simpa using hbc

/-- The value each of the five operations stores for a non-nil tag list. -/
theorem tag_key_of_some (env : Env) (tags : List GoString) :
    (∀ dt URL meta, mapGet (getVals dt URL (some tags) meta) "tag".toList
      = some [trim (joinTags tags) ',']) ∧
    (mapGet (datesVals (some tags)) "tag".toList = some [trim (joinTags tags) ',']) ∧
    (∀ count, mapGet (recentVals (some tags) count) "tag".toList
      = some [trim (joinTags tags) ',']) ∧
    (∀ offset count start finish meta,
      mapGet (bookmarksVals (some tags) offset count start finish meta) "tag".toList
        = some [trim (joinTags tags) ',']) ∧
    (∀ b : Bookmark, b.Tags = some tags →
      mapGet (addVals env b) "tags".toList = some [trim (joinTags tags) ',']) := by
  refine ⟨?_, ?_, ?_, ?_, ?_⟩
  · intro dt URL meta
    unfold getVals
    dsimp only
    split_ifs <;> simp +decide [mapGet_Set]
  · unfold datesVals
    simp +decide [mapGet_Set]
  · intro count
    unfold recentVals
    simp +decide [mapGet_Set]
  · intro offset count start finish meta
    unfold bookmarksVals
    dsimp only
    split_ifs <;> simp +decide [mapGet_Set]
  · intro b hb
    unfold addVals
    dsimp only
    rw [hb]
    simp +decide [mapGet_Set]

/-- The five operations store no tag key for a nil tag list. -/
theorem tag_key_of_nil (env : Env) :
    (∀ dt URL meta, mapGet (getVals dt URL none meta) "tag".toList = none) ∧
    (mapGet (datesVals none) "tag".toList = none) ∧
    (∀ count, mapGet (recentVals none count) "tag".toList = none) ∧
    (∀ offset count start finish meta,
      mapGet (bookmarksVals none offset count start finish meta) "tag".toList = none) ∧
    (∀ b : Bookmark, b.Tags = none → mapGet (addVals env b) "tags".toList = none) := by
  refine ⟨?_, ?_, ?_, ?_, ?_⟩
  · intro dt URL meta
    unfold getVals
    dsimp only
    split_ifs <;> simp +decide [mapGet_Set, mapGet]
  · rfl
  · intro count
    unfold recentVals
    simp +decide [mapGet_Set, mapGet]
  · intro offset count start finish meta
    unfold bookmarksVals
    dsimp only
    split_ifs <;> simp +decide [mapGet_Set, mapGet]
  · intro b hb
    unfold addVals
    dsimp only
    rw [hb]
    split_ifs <;> simp +decide [mapGet_Set, mapGet]

/-- C8: for a non-empty list of tags, each non-empty and without a comma,
the string built by trimming the joined tags is exactly the tags joined in
order by single commas; it neither starts nor ends with a comma; and `Get`,
`Dates`, `Recent` and `Bookmarks` store it under `tag`, `Add` under
`tags`. -/
theorem tags_joined_by_commas (env : Env) (tags : List GoString) (hne : tags ≠ [])
    (hgood : ∀ t ∈ tags, t ≠ [] ∧ ',' ∉ t) :
    trim (joinTags tags) ',' = List.intercalate [','] tags ∧
    (List.intercalate [','] tags).head? ≠ some ',' ∧
    (List.intercalate [','] tags).getLast? ≠ some ',' ∧
    (∀ dt URL meta, mapGet (getVals dt URL (some tags) meta) "tag".toList
      = some [List.intercalate [','] tags]) ∧
    (mapGet (datesVals (some tags)) "tag".toList = some [List.intercalate [','] tags]) ∧
    (∀ count, mapGet (recentVals (some tags) count) "tag".toList
      = some [List.intercalate [','] tags]) ∧
    (∀ offset count start finish meta,
      mapGet (bookmarksVals (some tags) offset count start finish meta) "tag".toList
        = some [List.intercalate [','] tags]) ∧
    (∀ b : Bookmark, mapGet (addVals env { b with Tags := some tags }) "tags".toList
      = some [List.intercalate [','] tags]) := by
  have hk := tag_key_of_some env tags
  have ht := trim_joinTags tags hne hgood
  obtain ⟨⟨a, ha, hac⟩, ⟨b, hb, hbc⟩⟩ := intercalate_ends tags hne hgood
  rw [ht] at hk
  refine ⟨ht, ?_, ?_, hk.1, hk.2.1, hk.2.2.1, hk.2.2.2.1, fun b => hk.2.2.2.2 _ rfl⟩
  · rw [ha]
    intro h
    exact hac (Option.some.inj h)
  · rw [hb]
    intro h
    exact hbc (Option.some.inj h)

theorem tags_joined_by_commas_witness :
    trim (joinTags ["a".toList, "b".toList, "c".toList]) ',' = "a,b,c".toList ∧
    mapGet (datesVals (some ["a".toList, "b".toList, "c".toList])) "tag".toList
      = some ["a,b,c".toList] ∧
    Values.Encode (datesVals (some ["a".toList, "b".toList, "c".toList]))
      = "tag=a%2Cb%2Cc".toList :=
  ⟨(tags_joined_by_commas testServer ["a".toList, "b".toList, "c".toList]
      (by decide) (by decide)).1,
   (tags_joined_by_commas testServer ["a".toList, "b".toList, "c".toList]
      (by decide) (by decide)).2.2.2.2.1,
   by decide⟩

/-- C9 (as amended): when the tag list is nil, the parameters of `Get`,
`Dates`, `Recent` and `Bookmarks` have no `tag` key and those of `Add` no
`tags` key; when it is a non-nil list of length zero, the key is present and
holds the empty string. -/
theorem tag_key_absent_for_nil (env : Env) :
    ((∀ dt URL meta, mapGet (getVals dt URL none meta) "tag".toList = none) ∧
     (mapGet (datesVals none) "tag".toList = none) ∧
     (∀ count, mapGet (recentVals none count) "tag".toList = none) ∧
     (∀ offset count start finish meta,
       mapGet (bookmarksVals none offset count start finish meta) "tag".toList = none) ∧
     (∀ b : Bookmark, mapGet (addVals env { b with Tags := none }) "tags".toList = none)) ∧
    ((∀ dt URL meta, mapGet (getVals dt URL (some []) meta) "tag".toList = some [[]]) ∧
     (mapGet (datesVals (some [])) "tag".toList = some [[]]) ∧
     (∀ count, mapGet (recentVals (some []) count) "tag".toList = some [[]]) ∧
     (∀ offset count start finish meta,
       mapGet (bookmarksVals (some []) offset count start finish meta) "tag".toList
         = some [[]]) ∧
     (∀ b : Bookmark, mapGet (addVals env { b with Tags := some [] }) "tags".toList
       = some [[]])) := by
  have hn := tag_key_of_nil env
  have hs := tag_key_of_some env []
  have ht : trim (joinTags []) ',' = [] := by decide
  rw [ht] at hs
  exact ⟨⟨hn.1, hn.2.1, hn.2.2.1, hn.2.2.2.1, fun b => hn.2.2.2.2 _ rfl⟩,
    ⟨hs.1, hs.2.1, hs.2.2.1, hs.2.2.2.1, fun b => hs.2.2.2.2 _ rfl⟩⟩

/-- C9 fails as stated: called with the zero-length list `[]string{}`,
`Dates` and `Get` send the `tag` key with an empty value. -/
theorem empty_tag_list_counterexample :
    mapGet (datesVals (some [])) "tag".toList = some [[]] ∧
    Values.Encode (datesVals (some [])) = "tag=".toList ∧
    Values.Encode (getVals Time.zero [] (some []) false) = "meta=no&tag=".toList := by
  decide

/-! ## Timestamps in requests -/

/-- C10: `Get` stores `dt` exactly when its date is not zero; `Bookmarks`
stores `fromdt` (resp. `todt`) exactly when `start` (resp. `end`) is not
zero; the stored value is the RFC3339 form of the time in UTC. `Add` always
stores `dt`: the RFC3339 form of the current time in UTC when `Created` is
zero, of `Created` in UTC otherwise. -/
theorem timestamps_in_requests (env : Env) :
    (∀ dt URL tags meta, mapGet (getVals dt URL tags meta) "dt".toList
      = if dt.IsZero then none else some [dt.UTC.FormatRFC3339]) ∧
    (∀ tags offset count start finish meta,
      mapGet (bookmarksVals tags offset count start finish meta) "fromdt".toList
        = if start.IsZero then none else some [start.UTC.FormatRFC3339]) ∧
    (∀ tags offset count start finish meta,
      mapGet (bookmarksVals tags offset count start finish meta) "todt".toList
        = if finish.IsZero then none else some [finish.UTC.FormatRFC3339]) ∧
    (∀ b : Bookmark, mapGet (addVals env b) "dt".toList
      = some [if b.Created.IsZero then env.now.UTC.FormatRFC3339
              else b.Created.UTC.FormatRFC3339]) := by
  refine ⟨?_, ?_, ?_, ?_⟩
  · intro dt URL tags meta
    unfold getVals
    cases tags <;> dsimp only <;> split_ifs <;> simp_all +decide [mapGet_Set, mapGet]
  · intro tags offset count start finish meta
    unfold bookmarksVals
    cases tags <;> dsimp only <;> split_ifs <;> simp_all +decide [mapGet_Set, mapGet]
  · intro tags offset count start finish meta
    unfold bookmarksVals
    cases tags <;> dsimp only <;> split_ifs <;> simp_all +decide [mapGet_Set, mapGet]
  · intro b
    unfold addVals
    cases b.Tags <;> dsimp only <;> split_ifs <;> simp_all +decide [mapGet_Set, mapGet]

/-! ## Transport -/

/-- C11: for a response with status 200 and a body of zero bytes,
`ioutil.ReadAll` returns an empty slice that is not nil, the test
`body == nil` fails, and `do` returns that empty slice with a nil error, not
nil data with the error `No data returned from server.`; for the body of the
single byte 0x0A it does return nil data with that error. -/
theorem do_empty_body_is_returned :
    doGet (fixedServer 200 [] none) "http://127.0.0.1/".toList = (some [], none) ∧
    doGet (fixedServer 200 [] none) "http://127.0.0.1/".toList
      ≠ (none, some (.new "No data returned from server.".toList)) ∧
    doGet (fixedServer 200 "\n".toList none) "http://127.0.0.1/".toList
      = (none, some (.new "No data returned from server.".toList)) := by
  decide

/-- C12 (as amended): for a response with status 200 whose body is exactly
one newline byte, `do` returns nil data and the error
`No data returned from server.`; for a response with any other status, `do`
returns nil data and the error `HTTP <code> <status text>`, whatever the
body. -/
theorem do_newline_body (env : Env) (url body : GoString) (c : Int)
    (readErr : Option GoError) (h : env.httpGet url = .response c body readErr) :
    (c = 200 → readErr = none → body = "\n".toList →
      doGet env url = (none, some (.new "No data returned from server.".toList))) ∧
    (c ≠ 200 →
      doGet env url
        = (none, some (.new ("HTTP ".toList ++ itoa c ++ " ".toList ++ env.statusText c)))) := by
  refine ⟨?_, ?_⟩
  · intro hc hr hb
    subst hc hr hb
    unfold doGet
    rw [h]
    rfl
  · intro hc
    unfold doGet
    rw [h]
    dsimp only
    rw [if_pos hc]

theorem do_newline_body_witness :
    doGet (fixedServer 200 "\n".toList none) "http://127.0.0.1/".toList
      = (none, some (.new "No data returned from server.".toList)) ∧
    doGet (fixedServer 401 "\n".toList none) "http://127.0.0.1/".toList
      = (none, some (.new ("HTTP ".toList ++ itoa 401 ++ " ".toList
          ++ (fixedServer 401 "\n".toList none).statusText 401))) :=
  ⟨(do_newline_body (fixedServer 200 "\n".toList none) "http://127.0.0.1/".toList
      "\n".toList 200 none rfl).1 rfl rfl rfl,
   (do_newline_body (fixedServer 401 "\n".toList none) "http://127.0.0.1/".toList
      "\n".toList 401 none rfl).2 (by decide)⟩

/-- C12 fails as stated: for a response with status 500 whose body is
exactly one newline byte, `do` returns the error
`HTTP 500 Internal Server Error`, not `No data returned from server.`. -/
theorem do_newline_status_500_counterexample :
    doGet (fixedServer 500 "\n".toList none) "http://127.0.0.1/".toList
      = (none, some (.new "HTTP 500 Internal Server Error".toList)) ∧
    doGet (fixedServer 500 "\n".toList none) "http://127.0.0.1/".toList
      ≠ (none, some (.new "No data returned from server.".toList)) := by
  decide

/-- C13 (as amended): for a response with status 200, read without error,
whose body is neither empty nor a single newline byte, `do` returns exactly
the bytes of the body, in order, with a nil error. -/
theorem do_returns_body (env : Env) (url body : GoString)
    (h : env.httpGet url = .response 200 body none)
    (hne : body ≠ []) (hnl : body ≠ "\n".toList) :
    doGet env url = (some body, none) := by
  unfold doGet
  rw [h]
  dsimp only [ioutilReadAll]
  rw [if_neg (by decide), if_neg]
  rintro ⟨hlen, hhead⟩
  apply hnl
  match body, hlen, hhead with
  | [c], _, hh =>
    have hc : c = Char.ofNat 10 := Option.some.inj hh
    rw [hc]
    rfl

theorem do_returns_body_witness :
    doGet (fixedServer 200 garbledBody none) "http://127.0.0.1/".toList
      = (some garbledBody, none) :=
  do_returns_body (fixedServer 200 garbledBody none) "http://127.0.0.1/".toList
    garbledBody rfl (by decide) (by decide)

/-- C13 fails as stated: for a response with the 2xx status 201 and the
body of `TestDoForResponseData`, `do` returns nil data and the error
`HTTP 201 Created`. -/
theorem do_status_201_counterexample :
    doGet (fixedServer 201 garbledBody none) "http://127.0.0.1/".toList
      = (none, some (.new "HTTP 201 Created".toList)) ∧
    doGet (fixedServer 201 garbledBody none) "http://127.0.0.1/".toList
      ≠ (some garbledBody, none) := by
  decide

/-! ## Confirmations of `Add`, `Del`, `DelTag` and `RenTag` -/

/-- An authenticated session hands the URL to `do` and passes on the body
`do` returns. -/
theorem performRequest_body (env : Env) (p : Pinboard) (method body : GoString)
    (vals : Option Values) (hp : p.authed = true)
    (hdo : doGet env (p.makeURL method vals) = (some body, none)) :
    p.performRequest env method vals = ⟨some body, none, [p.makeURL method vals]⟩ := by
  unfold Pinboard.performRequest
  rw [if_neg (by simp [hp])]
  dsimp only
  rw [hdo]

/-- The last step of `Add`, `Del`, `DelTag` and `RenTag`: the comparison of
the field with `done`. -/
theorem done_tail (m : GoMap GoString) (k : GoString) (gets : List GoString) :
    ((if strIndex (some m) k ≠ "done".toList then
        (⟨false, some (.new (strIndex (some m) k)), gets⟩ : Ret Bool)
      else ⟨true, none, gets⟩).val,
     (if strIndex (some m) k ≠ "done".toList then
        (⟨false, some (.new (strIndex (some m) k)), gets⟩ : Ret Bool)
      else ⟨true, none, gets⟩).err)
      = if (mapGet m k).getD [] = "done".toList then (true, none)
        else (false, some (.new ((mapGet m k).getD []))) := by
  have hs : strIndex (some m) k = (mapGet m k).getD [] := rfl
  rw [hs]
  by_cases h : (mapGet m k).getD [] = "done".toList
  · rw [if_pos h, if_neg (not_not.2 h)]
  · rw [if_neg h, if_pos h]

/-- C14: on an authenticated session, with a server that answers 200 with
the body `{hello:world}` (not JSON), `Add` returns `false` with a nil error:
the decode error is dropped. `Del`, on the same server, returns `false` with
the decode error. -/
theorem Add_swallows_decode_error :
    (authedSession.Add (fixedServer 200 garbledBody none) sampleBookmark).val = false ∧
    (authedSession.Add (fixedServer 200 garbledBody none) sampleBookmark).err = none ∧
    decodeJSON (fixedServer 200 garbledBody none) garbledBody = (none, some .jsonSyntax) ∧
    (authedSession.Del (fixedServer 200 garbledBody none) "http://www.food.com/".toList).err
      = some .jsonSyntax := by
  decide

/-- C15: on an authenticated session, when the body `do` returns decodes as
the flat string map `m`, `Add` and `Del` (field `result_code`) and `DelTag`
and `RenTag` (field `result`) return `(true, nil)` when the value of the
field is exactly `done`, and otherwise `false` with an error whose message
is the value of the field (the empty string when the field is absent). -/
theorem done_contract (env : Env) (p : Pinboard) (body : GoString) (m : GoMap GoString)
    (hp : p.authed = true) (hdec : decodeJSON env body = (some m, none)) :
    (∀ b, doGet env (p.makeURL "posts/add".toList (some (addVals env b))) = (some body, none) →
      ((p.Add env b).val, (p.Add env b).err)
        = if (mapGet m "result_code".toList).getD [] = "done".toList then (true, none)
          else (false, some (.new ((mapGet m "result_code".toList).getD [])))) ∧
    (∀ URL, doGet env (p.makeURL "posts/delete".toList (some (delVals URL)))
        = (some body, none) →
      ((p.Del env URL).val, (p.Del env URL).err)
        = if (mapGet m "result_code".toList).getD [] = "done".toList then (true, none)
          else (false, some (.new ((mapGet m "result_code".toList).getD [])))) ∧
    (∀ tag, doGet env (p.makeURL "tags/delete".toList (some (delTagVals tag)))
        = (some body, none) →
      ((p.DelTag env tag).val, (p.DelTag env tag).err)
        = if (mapGet m "result".toList).getD [] = "done".toList then (true, none)
          else (false, some (.new ((mapGet m "result".toList).getD [])))) ∧
    (∀ oldTag newTag,
      doGet env (p.makeURL "tags/rename".toList (some (renTagVals oldTag newTag)))
        = (some body, none) →
      ((p.RenTag env oldTag newTag).val, (p.RenTag env oldTag newTag).err)
        = if (mapGet m "result".toList).getD [] = "done".toList then (true, none)
          else (false, some (.new ((mapGet m "result".toList).getD [])))) := by
  refine ⟨?_, ?_, ?_, ?_⟩
  · intro b hdo
    unfold Pinboard.Add
    rw [performRequest_body env p _ body _ hp hdo]
    dsimp only
    rw [show (some body).getD [] = body from rfl, hdec]
    exact done_tail m _ _
  · intro URL hdo
    unfold Pinboard.Del
    rw [performRequest_body env p _ body _ hp hdo]
    dsimp only
    rw [show (some body).getD [] = body from rfl, hdec]
    exact done_tail m _ _
  · intro tag hdo
    unfold Pinboard.DelTag
    rw [performRequest_body env p _ body _ hp hdo]
    dsimp only
    rw [show (some body).getD [] = body from rfl, hdec]
    exact done_tail m _ _
  · intro oldTag newTag hdo
    unfold Pinboard.RenTag
    rw [performRequest_body env p _ body _ hp hdo]
    dsimp only
    rw [show (some body).getD [] = body from rfl, hdec]
    exact done_tail m _ _

theorem done_contract_witness :
    ((authedSession.Del testServer "aazzbbzz".toList).val,
      (authedSession.Del testServer "aazzbbzz".toList).err)
      = (false, some (.new [])) ∧
    ((authedSession.DelTag
        (fixedServer 200 "done-body".toList (some (.obj [("result".toList, .str "done".toList)])))
        "zap".toList).val,
      (authedSession.DelTag
        (fixedServer 200 "done-body".toList (some (.obj [("result".toList, .str "done".toList)])))
        "zap".toList).err)
      = (true, none) :=
  ⟨(done_contract testServer authedSession tokenBody
      [("result".toList, "0123456789".toList)] rfl (by decide)).2.1 "aazzbbzz".toList
      (by decide),
   (done_contract
      (fixedServer 200 "done-body".toList (some (.obj [("result".toList, .str "done".toList)])))
      authedSession "done-body".toList [("result".toList, "done".toList)] rfl
      (by decide)).2.2.1 "zap".toList (by decide)⟩

/-! ## Post objects without `hash` or `meta` -/

/-- C16: on an authenticated session, with a `posts` response whose single
post object carries the seven fields `href`, `description`, `extended`,
`tags`, `time`, `shared`, `toread` and no `hash` or `meta`, `Get`, `Recent`
and `Bookmarks` panic (the assertion `p["hash"].(string)` on a missing key);
the same post with `meta` and `hash` is decoded. -/
theorem posts_without_hash_panic :
    decodePost (fixedServer 200 postsBody none) (postValue []) = none ∧
    (authedSession.Get
      (fixedServer 200 postsBody (some (.obj [("posts".toList, .arr [postValue []])])))
      Time.zero [] none false).isNone = true ∧
    (authedSession.Recent
      (fixedServer 200 postsBody (some (.obj [("posts".toList, .arr [postValue []])])))
      none 2).isNone = true ∧
    (authedSession.Bookmarks
      (fixedServer 200 postsBody (some (.arr [postValue []])))
      none 0 2 Time.zero Time.zero false).isNone = true ∧
    (decodePost (fixedServer 200 postsBody none) (postValue metaAndHash)).isSome = true ∧
    (authedSession.Get
      (fixedServer 200 postsBody (some (.obj [("posts".toList, .arr [postValue metaAndHash])])))
      Time.zero [] none false).isSome = true := by
  decide

/-! ## Maps built from JSON objects -/

theorem mkMap_append {β : Type} (ms : List (GoString × β)) (e : GoString × β) :
    mkMap (ms ++ [e]) = mapSet (mkMap ms) e.1 e.2 := by
  simp [mkMap, List.foldl_append]

theorem mem_mapSet {β : Type} (m : GoMap β) (k : GoString) (x : β) (e : GoString × β)
    (h : e ∈ mapSet m k x) : e ∈ m ∨ e = (k, x) := by
  induction m with
  | nil =>
    simp only [mapSet, List.mem_singleton] at h
    exact Or.inr h
  | cons a r ih =>
    obtain ⟨k0, y⟩ := a
    by_cases h0 : k0 = k
    · simp only [mapSet, h0, if_true, List.mem_cons] at h
      rcases h with h | h
      · exact Or.inr h
      · exact Or.inl (List.mem_cons_of_mem _ h)
    · simp only [mapSet, h0, if_false, List.mem_cons] at h
      rcases h with h | h
      · exact Or.inl (h ▸ List.mem_cons_self _ _)
      · rcases ih h with h1 | h1
        · exact Or.inl (List.mem_cons_of_mem _ h1)
        · exact Or.inr h1

/-- Every binding of the map comes from a member of the object. -/
theorem mem_mkMap {β : Type} (ms : List (GoString × β)) (e : GoString × β)
    (h : e ∈ mkMap ms) : e ∈ ms := by
  induction ms using List.reverseRecOn with
  | nil => exact h
  | append_singleton r a ih =>
    rw [mkMap_append] at h
    rcases mem_mapSet _ _ _ _ h with h1 | h1
    · exact List.mem_append_left _ (ih h1)
    · rw [h1]
      exact List.mem_append_right _ (List.mem_singleton_self _)

theorem keys_mapSet {β : Type} (m : GoMap β) (k : GoString) (x : β) :
    (mapSet m k x).map Prod.fst
      = if k ∈ m.map Prod.fst then m.map Prod.fst else m.map Prod.fst ++ [k] := by
  induction m with
  | nil => simp [mapSet]
  | cons a r ih =>
    obtain ⟨k0, y⟩ := a
    by_cases h0 : k0 = k
    · subst h0
      have hm : k0 ∈ ((k0, y) :: r).map Prod.fst := List.mem_cons_self _ _
      simp only [mapSet, if_true]
      rw [if_pos hm]
      rfl
    · have h1 : ¬ k = k0 := fun h => h0 h.symm
      simp only [mapSet, h0, if_false, List.map_cons, List.mem_cons, h1, false_or, ih]
      split_ifs <;> rfl

/-- The keys of the map are the names of the members, each once. -/
theorem keys_mkMap {β : Type} (ms : List (GoString × β)) :
    ((mkMap ms).map Prod.fst).Nodup ∧
    ∀ k, k ∈ (mkMap ms).map Prod.fst ↔ k ∈ ms.map Prod.fst := by
  induction ms using List.reverseRecOn with
  | nil => exact ⟨List.nodup_nil, fun k => Iff.rfl⟩
  | append_singleton r a ih =>
    rw [mkMap_append, keys_mapSet]
    by_cases h : a.1 ∈ (mkMap r).map Prod.fst
    · rw [if_pos h]
      refine ⟨ih.1, fun k => ?_⟩
      rw [List.map_append, List.mem_append, ← ih.2 k]
      constructor
      · exact Or.inl
      · rintro (h1 | h1)
        · exact h1
        · simp only [List.map_cons, List.map_nil, List.mem_singleton] at h1
          rw [h1]
          exact h
    · rw [if_neg h]
      refine ⟨?_, fun k => ?_⟩
      · rw [List.nodup_append]
        refine ⟨ih.1, List.nodup_singleton _, ?_⟩
        intro x hx hx1
        rw [List.mem_singleton] at hx1
        exact h (hx1 ▸ hx)
      · rw [List.map_append, List.mem_append, List.mem_append, ih.2 k]
        exact Iff.rfl

/-- The value of a key in the map is the value of the last member with that
name. -/
theorem mapGet_mkMap {β : Type} (ms : List (GoString × β)) (k : GoString) :
    mapGet (mkMap ms) k = ((ms.filter (fun e => e.1 = k)).getLast?).map Prod.snd := by
  induction ms using List.reverseRecOn with
  | nil => rfl
  | append_singleton r a ih =>
    rw [mkMap_append, mapGet_mapSet, List.filter_append]
    by_cases h : a.1 = k
    · rw [if_pos h]
      have hf : List.filter (fun e => decide (e.1 = k)) [a] = [a] := by simp [h]
      rw [hf, List.getLast?_append]
      rfl
    · rw [if_neg h, ih]
      have hf : List.filter (fun e => decide (e.1 = k)) [a] = [] := by simp [h]
      rw [hf, List.append_nil]

theorem mapM_some {α β : Type} (f : α → Option β) (g : α → β) (l : List α)
    (h : ∀ x ∈ l, f x = some (g x)) : l.mapM f = some (l.map g) := by
  induction l with
  | nil => rfl
  | cons a r ih =>
    rw [List.mapM_cons, h a (List.mem_cons_self _ _),
      ih (fun x hx => h x (List.mem_cons_of_mem _ hx))]
    rfl

theorem map_range_get {α β : Type} (l : List α) (G : Option α → β) (n : Nat)
    (hn : n ≤ l.length) :
    (List.range n).map (fun i => G l[i]?) = (l.take n).map (fun x => G (some x)) := by
  induction n with
  | zero => simp
  | succ n ih =>
    have hlt : n < l.length := hn
    rw [List.range_succ, List.map_append, ih (Nat.le_of_lt hlt), List.take_succ,
      List.map_append]
    congr 1
    show [G l[n]?] = List.map _ (l[n]?).toList
    rw [List.getElem?_eq_getElem hlt]
    rfl

theorem decodeJSONIFace_object (env : Env) (body : GoString)
    (members : List (GoString × JSON)) (hj : env.jsonParse body = some (.obj members)) :
    decodeJSONIFace env body = (some (mkMap members), none) := by
  unfold decodeJSONIFace
  rw [hj]

theorem decodeJSONListIFace_array (env : Env) (body : GoString) (xs : List JSON)
    (hj : env.jsonParse body = some (.arr xs)) :
    decodeJSONListIFace env body = (some xs, none) := by
  unfold decodeJSONListIFace
  rw [hj]

/-! ## Date histogram -/

theorem datesLoop_all (env : Env) (d : List (GoString × JSON))
    (hstr : ∀ kv ∈ d, ∃ s, kv.2 = .str s)
    (hday : ∀ kv ∈ d, ∃ t, env.parseDay kv.1 = some t) (acc : List Post) :
    datesLoop env d acc = some (some (acc ++ d.map (postOfBinding env)), none) := by
  induction d generalizing acc with
  | nil => simp [datesLoop]
  | cons kv r ih =>
    obtain ⟨k, v⟩ := kv
    obtain ⟨c, hc⟩ := hstr (k, v) (List.mem_cons_self _ _)
    obtain ⟨t, ht⟩ := hday (k, v) (List.mem_cons_self _ _)
    simp only at hc ht
    subst hc
    have ih1 := ih (fun x hx => hstr x (List.mem_cons_of_mem _ hx))
      (fun x hx => hday x (List.mem_cons_of_mem _ hx)) (acc ++ [⟨t, atoi c⟩])
    simp only [datesLoop, ht, asString, ih1, List.map_cons, postOfBinding, Option.getD,
      JSON.strOr, List.append_assoc, List.singleton_append]

theorem datesLoop_fail (env : Env) (d : List (GoString × JSON))
    (hstr : ∀ kv ∈ d, ∃ s, kv.2 = .str s)
    (hbad : ∃ kv ∈ d, env.parseDay kv.1 = none) (acc : List Post) :
    datesLoop env d acc = some (none, some .timeParse) := by
  induction d generalizing acc with
  | nil =>
    obtain ⟨kv, hkv, _⟩ := hbad
    exact absurd hkv (List.not_mem_nil _)
  | cons kv r ih =>
    obtain ⟨k, v⟩ := kv
    obtain ⟨c, hc⟩ := hstr (k, v) (List.mem_cons_self _ _)
    simp only at hc
    subst hc
    cases ht : env.parseDay k with
    | none => simp only [datesLoop, ht]
    | some t =>
      have hbad1 : ∃ kv ∈ r, env.parseDay kv.1 = none := by
        obtain ⟨kv, hkv, hn⟩ := hbad
        rcases List.mem_cons.1 hkv with h | h
        · rw [h] at hn
          rw [ht] at hn
          cases hn
        · exact ⟨kv, h, hn⟩
      have ih1 := ih (fun x hx => hstr x (List.mem_cons_of_mem _ hx)) hbad1
        (acc ++ [⟨t, atoi c⟩])
      simp only [datesLoop, ht, asString, ih1]

/-- C17: on an authenticated session, for a response whose `dates` field is
an object with string values: if `time.Parse("2006-01-02", k)` succeeds for
every key, `Dates` returns, with a nil error, one `Post` per key (the keys
are pairwise distinct), with `Date` the time parsed from the key (that day
at 00:00:00 UTC when that is what `time.Parse` gives for the key) and
`Count` the `atoi` of the value of the key; if it fails for some key,
`Dates` returns nil with a non-nil error. The order of the posts is the
order of the map, which Go leaves unspecified. -/
theorem Dates_all_or_nothing (env : Env) (p : Pinboard) (tags : Option (List GoString))
    (body : GoString) (members dm : List (GoString × JSON))
    (hp : p.authed = true)
    (hdo : doGet env (p.makeURL "posts/dates".toList (some (datesVals tags)))
      = (some body, none))
    (hj : env.jsonParse body = some (.obj members))
    (hd : mapGet (mkMap members) "dates".toList = some (.obj dm))
    (hstr : ∀ kv ∈ dm, ∃ s, kv.2 = .str s) :
    ((∀ kv ∈ mkMap dm, ∃ t, env.parseDay kv.1 = some t) →
      p.Dates env tags
        = some ⟨some ((mkMap dm).map (postOfBinding env)), none,
            [p.makeURL "posts/dates".toList (some (datesVals tags))]⟩) ∧
    ((∃ kv ∈ mkMap dm, env.parseDay kv.1 = none) →
      p.Dates env tags
        = some ⟨none, some .timeParse,
            [p.makeURL "posts/dates".toList (some (datesVals tags))]⟩) ∧
    ((mkMap dm).map Prod.fst).Nodup ∧
    (∀ k, k ∈ (mkMap dm).map Prod.fst ↔ k ∈ dm.map Prod.fst) ∧
    (∀ (k v : GoString) (y m d : Int),
      env.parseDay k = some (Date y m d 0 0 0 0 .utc) →
      postOfBinding env (k, .str v) = ⟨Date y m d 0 0 0 0 .utc, atoi v⟩) := by
  have hstr1 : ∀ kv ∈ mkMap dm, ∃ s, kv.2 = .str s :=
    fun kv hkv => hstr kv (mem_mkMap dm kv hkv)
  have hpre : p.Dates env tags
      = (datesLoop env (mkMap dm) []).bind fun r =>
          some ⟨r.1, r.2, [p.makeURL "posts/dates".toList (some (datesVals tags))]⟩ := by
    unfold Pinboard.Dates
    rw [performRequest_body env p _ body _ hp hdo]
    dsimp only
    rw [show (some body).getD [] = body from rfl, decodeJSONIFace_object env body members hj]
    dsimp only [ifaceIndex]
    rw [hd]
    rfl
  refine ⟨?_, ?_, (keys_mkMap dm).1, (keys_mkMap dm).2, ?_⟩
  · intro hall
    rw [hpre, datesLoop_all env _ hstr1 hall []]
    rfl
  · intro hbad
    rw [hpre, datesLoop_fail env _ hstr1 hbad []]
    rfl
  · intro k v y m d hk
    unfold postOfBinding
    dsimp only
    rw [hk]
    rfl

theorem Dates_all_or_nothing_witness :
    authedSession.Dates (fixedServer 200 datesBody (some datesValue)) (some ["news".toList])
      = some ⟨some [⟨Date 2015 7 3 0 0 0 0 .utc, 4⟩, ⟨Date 2015 7 2 0 0 0 0 .utc, 2⟩,
            ⟨Date 2015 7 1 0 0 0 0 .utc, 1⟩], none,
          [authedSession.makeURL "posts/dates".toList
            (some (datesVals (some ["news".toList])))]⟩ :=
  (Dates_all_or_nothing (fixedServer 200 datesBody (some datesValue)) authedSession
    (some ["news".toList]) datesBody
    [("user".toList, .str "mango".toList), ("tag".toList, .str "news".toList),
      ("dates".toList, .obj [("2015-07-03".toList, .str "4".toList),
        ("2015-07-02".toList, .str "2".toList), ("2015-07-01".toList, .str "1".toList)])]
    [("2015-07-03".toList, .str "4".toList),
      ("2015-07-02".toList, .str "2".toList), ("2015-07-01".toList, .str "1".toList)]
    rfl (by decide) rfl rfl
    (by simp)).1 (by simp [mkMap, mapSet, fixedServer])

/-! ## Tag suggestions -/

theorem suggestList_strings (members : List (GoString × JSON)) (key : GoString)
    (l : List GoString)
    (h : mapGet (mkMap members) key = some (.arr (l.map JSON.str))) :
    suggestList (.obj members) key = some l := by
  have hm : (l.map JSON.str).mapM (fun t => asString (some t)) = some l := by
    have h1 := mapM_some (fun t => asString (some t)) JSON.strOr (l.map JSON.str)
      (by
        intro x hx
        rw [List.mem_map] at hx
        obtain ⟨s, _, rfl⟩ := hx
        rfl)
    rw [h1, List.map_map]
    congr 1
    exact List.map_id _
  unfold suggestList
  simp only [asMap, asList, h, hm, Option.bind_eq_bind, Option.some_bind, bind, pure]

/-- C18: on an authenticated session, for a response that is a JSON array:
with fewer than 2 elements, `Suggest` returns two empty sequences and a nil
error; with at least 2 elements, the first an object whose `popular` field
is an array of strings and the second an object whose `recommended` field
is an array of strings, `Suggest` returns the first list as `Popular` and
the second as `Recommended`, each in the order of the response, with a nil
error, whatever elements follow. -/
theorem Suggest_lists (env : Env) (p : Pinboard) (URL body : GoString) (xs : List JSON)
    (hp : p.authed = true)
    (hdo : doGet env (p.makeURL "posts/suggest".toList (some (suggestVals URL)))
      = (some body, none))
    (hj : env.jsonParse body = some (.arr xs)) :
    (xs.length < 2 →
      p.Suggest env URL
        = some ⟨(some [], some []), none,
            [p.makeURL "posts/suggest".toList (some (suggestVals URL))]⟩) ∧
    (∀ (m0 m1 : List (GoString × JSON)) (others : List JSON) (pop recd : List GoString),
      xs = .obj m0 :: .obj m1 :: others →
      mapGet (mkMap m0) "popular".toList = some (.arr (pop.map JSON.str)) →
      mapGet (mkMap m1) "recommended".toList = some (.arr (recd.map JSON.str)) →
      p.Suggest env URL
        = some ⟨(some pop, some recd), none,
            [p.makeURL "posts/suggest".toList (some (suggestVals URL))]⟩) := by
  have hpre : p.Suggest env URL
      = match (some xs : Option (List JSON)).getD [] with
        | j0 :: j1 :: _ => do
          let pop ← suggestList j0 "popular".toList
          let recd ← suggestList j1 "recommended".toList
          pure ⟨(some pop, some recd), none,
            [p.makeURL "posts/suggest".toList (some (suggestVals URL))]⟩
        | _ => some ⟨(some [], some []), none,
            [p.makeURL "posts/suggest".toList (some (suggestVals URL))]⟩ := by
    unfold Pinboard.Suggest
    rw [performRequest_body env p _ body _ hp hdo]
    dsimp only
    rw [show (some body).getD [] = body from rfl, decodeJSONListIFace_array env body xs hj]
  refine ⟨?_, ?_⟩
  · intro hlen
    rw [hpre]
    match xs, hlen with
    | [], _ => rfl
    | [_], _ => rfl
    | _ :: _ :: _, h => exact absurd h (by simp)
  · intro m0 m1 others pop recd hxs h0 h1
    rw [hpre, hxs]
    dsimp only [Option.getD]
    rw [suggestList_strings m0 _ pop h0, suggestList_strings m1 _ recd h1]
    rfl

theorem Suggest_lists_witness :
    authedSession.Suggest (fixedServer 200 suggestBody (some suggestValue))
        "http://www.eef.org".toList
      = some ⟨(some ["security".toList], some ["privacy".toList, "security".toList]), none,
          [authedSession.makeURL "posts/suggest".toList
            (some (suggestVals "http://www.eef.org".toList))]⟩ ∧
    authedSession.Suggest (fixedServer 200 "[]".toList (some (.arr [])))
        "http://www.eef.org".toList
      = some ⟨(some [], some []), none,
          [authedSession.makeURL "posts/suggest".toList
            (some (suggestVals "http://www.eef.org".toList))]⟩ :=
  ⟨(Suggest_lists (fixedServer 200 suggestBody (some suggestValue)) authedSession
      "http://www.eef.org".toList suggestBody _ rfl (by decide) rfl).2
      [("popular".toList, .arr [.str "security".toList])]
      [("recommended".toList, .arr [.str "privacy".toList, .str "security".toList])]
      [.obj [("other".toList, .arr [.str "ignored".toList])]]
      ["security".toList] ["privacy".toList, "security".toList] rfl rfl rfl,
   (Suggest_lists (fixedServer 200 "[]".toList (some (.arr []))) authedSession
      "http://www.eef.org".toList "[]".toList [] rfl (by decide) rfl).1 (by decide)⟩

/-! ## Notes -/

/-- `parseDateTime` never panics: on a string of length 19 every slice it
takes is in range. -/
theorem parseDateTime_total (dt : GoString) : ∃ t, parseDateTime dt = some t := by
  unfold parseDateTime
  by_cases h : dt.length ≠ 19
  · rw [if_pos h]
    exact ⟨_, rfl⟩
  · rw [if_neg h]
    have h19 : dt.length = 19 := not_not.1 h
    simp [slice, h19]

theorem decodeNoteMeta_wellTyped (notes : List JSON) (i : Nat) (x : JSON)
    (hx : notes[i]? = some x) (hw : WellTypedNote x) :
    decodeNoteMeta notes i = some (noteFields x) := by
  obtain ⟨members, rfl, hf⟩ := hw
  obtain ⟨s1, h1⟩ := hf "id".toList (by simp)
  obtain ⟨s2, h2⟩ := hf "title".toList (by simp)
  obtain ⟨s3, h3⟩ := hf "length".toList (by simp)
  obtain ⟨s4, h4⟩ := hf "hash".toList (by simp)
  obtain ⟨s5, h5⟩ := hf "created_at".toList (by simp)
  obtain ⟨s6, h6⟩ := hf "updated_at".toList (by simp)
  obtain ⟨t5, ht5⟩ := parseDateTime_total s5
  obtain ⟨t6, ht6⟩ := parseDateTime_total s6
  unfold decodeNoteMeta noteFields
  simp only [hx, asMap, asString, fieldStr, JSON.strOr, Option.getD, h1, h2, h3, h4, h5, h6,
    ht5, ht6, Option.bind_eq_bind, Option.some_bind, bind, pure]

theorem noteValue_wellTyped (id hash title length : String) :
    WellTypedNote (noteValue id hash title length) := by
  refine ⟨_, rfl, ?_⟩
  intro k hk
  simp only [List.mem_cons, List.mem_singleton, List.not_mem_nil, or_false] at hk
  rcases hk with rfl | rfl | rfl | rfl | rfl | rfl <;> exact ⟨_, rfl⟩

/-- C19: on an authenticated session, for a `notes/list` response whose
`count` is `c` with `0 <= c <= len(notes)` and whose first `c` note objects
are well typed, `Notes` returns exactly `c` records with a nil error, the
i-th built from the i-th element of the array (`Length` the `atoi` of its
`length` string, `Created` and `Updated` the `parseDateTime` of `created_at`
and `updated_at`); the elements of the array beyond `c` are dropped. -/
theorem Notes_count (env : Env) (p : Pinboard) (body : GoString)
    (members : List (GoString × JSON)) (notes : List JSON) (c : Int)
    (hp : p.authed = true)
    (hdo : doGet env (p.makeURL "notes/list".toList none) = (some body, none))
    (hj : env.jsonParse body = some (.obj members))
    (hc : mapGet (mkMap members) "count".toList = some (.num c))
    (hn : mapGet (mkMap members) "notes".toList = some (.arr notes))
    (h0 : 0 ≤ c) (hle : c ≤ notes.length)
    (hwt : ∀ x ∈ notes.take c.toNat, WellTypedNote x) :
    p.Notes env
      = some ⟨some ((notes.take c.toNat).map noteFields), none,
          [p.makeURL "notes/list".toList none]⟩ ∧
    (((notes.take c.toNat).map noteFields).length : Int) = c := by
  have hcn : c.toNat ≤ notes.length := by omega
  have hmap : (List.range c.toNat).mapM (decodeNoteMeta notes)
      = some ((notes.take c.toNat).map noteFields) := by
    rw [mapM_some (decodeNoteMeta notes) (fun i => noteFields ((notes[i]?).getD .null))]
    · rw [map_range_get notes (fun o => noteFields (o.getD .null)) c.toNat hcn]
      rfl
    · intro i hi
      rw [List.mem_range] at hi
      have hlt : i < notes.length := Nat.lt_of_lt_of_le hi hcn
      have hget : notes[i]? = some notes[i] := List.getElem?_eq_getElem hlt
      have hmem : notes[i] ∈ notes.take c.toNat := by
        apply List.getElem?_mem (n := i)
        rw [List.getElem?_take_of_lt hi, hget]
      rw [decodeNoteMeta_wellTyped notes i notes[i] hget (hwt _ hmem), hget]
      rfl
  refine ⟨?_, ?_⟩
  · unfold Pinboard.Notes
    rw [performRequest_body env p _ body _ hp hdo]
    dsimp only
    rw [show (some body).getD [] = body from rfl, decodeJSONIFace_object env body members hj]
    dsimp only [ifaceIndex]
    rw [hc, hn]
    simp only [asInt, asList, hmap, Option.bind_eq_bind, Option.some_bind, bind, pure]
  · rw [List.length_map, List.length_take, Nat.min_eq_left hcn]
    exact Int.toNat_of_nonneg h0

theorem Notes_count_witness :
    authedSession.Notes (fixedServer 200 notesBody (some notesValue))
      = some ⟨some [firstNote,
            ⟨"364bd9876a2b96543453".toList, "coding notes".toList, 42,
              some "b7c4876y55bb946c0216".toList, Date 2015 4 20 13 51 58 0 .utc,
              Date 2015 4 20 13 51 58 0 .utc⟩], none,
          [authedSession.makeURL "notes/list".toList none]⟩ :=
  (Notes_count (fixedServer 200 notesBody (some notesValue)) authedSession notesBody
    [("count".toList, .num 2),
      ("notes".toList, .arr [
        noteValue "364bd4c30a2b9654d0e1" "b7c4cd9c55bb946c0216" "shopping list" "26",
        noteValue "364bd9876a2b96543453" "b7c4876y55bb946c0216" "coding notes" "42",
        noteValue "364bd0000a2b96540000" "b7c4000055bb946c0000" "third note" "7"])]
    [noteValue "364bd4c30a2b9654d0e1" "b7c4cd9c55bb946c0216" "shopping list" "26",
      noteValue "364bd9876a2b96543453" "b7c4876y55bb946c0216" "coding notes" "42",
      noteValue "364bd0000a2b96540000" "b7c4000055bb946c0000" "third note" "7"]
    2 rfl (by decide) rfl rfl rfl (by decide) (by decide)
    (by
      intro x hx
      have h2 : x = noteValue "364bd4c30a2b9654d0e1" "b7c4cd9c55bb946c0216" "shopping list" "26"
          ∨ x = noteValue "364bd9876a2b96543453" "b7c4876y55bb946c0216" "coding notes" "42" := by
        simpa using hx
      rcases h2 with rfl | rfl
      · exact noteValue_wellTyped _ _ _ _
      · exact noteValue_wellTyped _ _ _ _)).1

/-! ## The flat string map decoder -/

theorem stringMembers_ok (ms : List (GoString × JSON))
    (h : ∀ kv ∈ ms, kv.2 = .null ∨ ∃ s, kv.2 = .str s) :
    stringMembers ms = some (ms.map fun kv => (kv.1, kv.2.strOr)) := by
  induction ms with
  | nil => rfl
  | cons kv r ih =>
    obtain ⟨k, v⟩ := kv
    have ih1 := ih (fun x hx => h x (List.mem_cons_of_mem _ hx))
    rcases h (k, v) (List.mem_cons_self _ _) with hv | ⟨s, hv⟩
    · simp only at hv
      subst hv
      simp [stringMembers, ih1, JSON.strOr]
    · simp only at hv
      subst hv
      simp [stringMembers, ih1, JSON.strOr]

theorem stringMembers_bad (ms : List (GoString × JSON))
    (h : ∃ kv ∈ ms, kv.2 ≠ .null ∧ ∀ s, kv.2 ≠ .str s) :
    stringMembers ms = none := by
  induction ms with
  | nil =>
    obtain ⟨kv, hkv, _⟩ := h
    exact absurd hkv (List.not_mem_nil _)
  | cons kv r ih =>
    obtain ⟨k, v⟩ := kv
    by_cases hv : v ≠ .null ∧ ∀ s, v ≠ .str s
    · cases v with
      | null => exact absurd rfl hv.1
      | str s => exact absurd rfl (hv.2 s)
      | bool b => rfl
      | num n => rfl
      | arr xs => rfl
      | obj m => rfl
    · have hr : ∃ kv ∈ r, kv.2 ≠ .null ∧ ∀ s, kv.2 ≠ .str s := by
        obtain ⟨kv, hkv, hbad⟩ := h
        rcases List.mem_cons.1 hkv with h1 | h1
        · rw [h1] at hbad
          exact absurd hbad hv
        · exact ⟨kv, h1, hbad⟩
      have ih1 := ih hr
      cases v with
      | null => simp [stringMembers, ih1]
      | str s => simp [stringMembers, ih1]
      | bool b => rfl
      | num n => rfl
      | arr xs => rfl
      | obj m => rfl

/-- C20 (as amended): for every JSON object, `decodeJSON` returns a nil map
and a type error if some member value is a number, a boolean, an array or an
object; otherwise (every value a string or `null`) it returns a nil error
and the map of the members, a `null` stored as the empty string: the value of
a key is the string of the last member with that name. -/
theorem decodeJSON_object (env : Env) (body : GoString) (members : List (GoString × JSON))
    (hj : env.jsonParse body = some (.obj members)) :
    ((∃ kv ∈ members, kv.2 ≠ .null ∧ ∀ s, kv.2 ≠ .str s) →
      decodeJSON env body = (none, some .jsonType)) ∧
    ((∀ kv ∈ members, kv.2 = .null ∨ ∃ s, kv.2 = .str s) →
      decodeJSON env body
        = (some (mkMap (members.map fun kv => (kv.1, kv.2.strOr))), none) ∧
      ∀ k, mapGet (mkMap (members.map fun kv => (kv.1, kv.2.strOr))) k
        = ((members.filter (fun e => e.1 = k)).getLast?).map (fun e => e.2.strOr)) := by
  refine ⟨?_, ?_⟩
  · intro hbad
    unfold decodeJSON
    rw [hj]
    dsimp only
    rw [stringMembers_bad members hbad]
  · intro hall
    refine ⟨?_, ?_⟩
    · unfold decodeJSON
      rw [hj]
      dsimp only
      rw [stringMembers_ok members hall]
    · intro k
      rw [mapGet_mkMap, List.filter_map, List.getLast?_map, Option.map_map]
      rfl

theorem decodeJSON_object_witness :
    decodeJSON
        (fixedServer 200 "body".toList
          (some (.obj [("index".toList, .num 42), ("eyeColor".toList, .str "brown".toList)])))
        "body".toList
      = (none, some .jsonType) ∧
    decodeJSON
        (fixedServer 200 "body".toList
          (some (.obj [("index".toList, .str "42".toList),
            ("eyeColor".toList, .str "brown".toList)])))
        "body".toList
      = (some [("index".toList, "42".toList), ("eyeColor".toList, "brown".toList)], none) :=
  ⟨(decodeJSON_object
      (fixedServer 200 "body".toList
        (some (.obj [("index".toList, .num 42), ("eyeColor".toList, .str "brown".toList)])))
      "body".toList _ rfl).1
      ⟨("index".toList, .num 42), by simp, by simp⟩,
   ((decodeJSON_object
      (fixedServer 200 "body".toList
        (some (.obj [("index".toList, .str "42".toList),
          ("eyeColor".toList, .str "brown".toList)])))
      "body".toList _ rfl).2 (by simp)).1⟩

/-- C20 fails as stated: for the object whose one member `a` is `null`,
`decodeJSON` returns a nil error and the map that holds the empty string
for `a`. -/
theorem decodeJSON_null_member_counterexample :
    decodeJSON (fixedServer 200 "body".toList (some (.obj [("a".toList, .null)])))
        "body".toList
      = (some [("a".toList, [])], none) := by
  decide

/-! ## Decoder failures -/

/-- C21 (as amended): each of the three decoders returns nil data with a
syntax error for every input that is not valid JSON, and nil data with a
type error for every valid input whose root is neither `null` nor of the
shape of the decoder (an object for `decodeJSON` and `decodeJSONIFace`, an
array for `decodeJSONListIFace`); for the root `null` each returns nil data
with a nil error. -/
theorem decoders_reject (env : Env) (b : GoString) :
    (env.jsonParse b = none →
      decodeJSON env b = (none, some .jsonSyntax) ∧
      decodeJSONIFace env b = (none, some .jsonSyntax) ∧
      decodeJSONListIFace env b = (none, some .jsonSyntax)) ∧
    (∀ v, env.jsonParse b = some v → v ≠ .null → (∀ members, v ≠ .obj members) →
      decodeJSON env b = (none, some .jsonType) ∧
      decodeJSONIFace env b = (none, some .jsonType)) ∧
    (∀ v, env.jsonParse b = some v → v ≠ .null → (∀ xs, v ≠ .arr xs) →
      decodeJSONListIFace env b = (none, some .jsonType)) ∧
    (env.jsonParse b = some .null →
      decodeJSON env b = (none, none) ∧
      decodeJSONIFace env b = (none, none) ∧
      decodeJSONListIFace env b = (none, none)) := by
  refine ⟨?_, ?_, ?_, ?_⟩
  · intro h
    unfold decodeJSON decodeJSONIFace decodeJSONListIFace
    rw [h]
    exact ⟨rfl, rfl, rfl⟩
  · intro v h hnull hobj
    unfold decodeJSON decodeJSONIFace
    rw [h]
    cases v with
    | null => exact absurd rfl hnull
    | obj members => exact absurd rfl (hobj members)
    | bool x => exact ⟨rfl, rfl⟩
    | num n => exact ⟨rfl, rfl⟩
    | str x => exact ⟨rfl, rfl⟩
    | arr xs => exact ⟨rfl, rfl⟩
  · intro v h hnull harr
    unfold decodeJSONListIFace
    rw [h]
    cases v with
    | null => exact absurd rfl hnull
    | arr xs => exact absurd rfl (harr xs)
    | bool x => rfl
    | num n => rfl
    | str x => rfl
    | obj members => rfl
  · intro h
    unfold decodeJSON decodeJSONIFace decodeJSONListIFace
    rw [h]
    exact ⟨rfl, rfl, rfl⟩

theorem decoders_reject_witness :
    decodeJSON (fixedServer 200 "[1]".toList (some (.arr [.num 1]))) [] = (none, some .jsonSyntax) ∧
    decodeJSONListIFace (fixedServer 200 "[1]".toList (some (.arr [.num 1]))) "hello".toList
      = (none, some .jsonSyntax) ∧
    decodeJSONIFace (fixedServer 200 "[1]".toList (some (.arr [.num 1]))) "[1]".toList
      = (none, some .jsonType) ∧
    decodeJSONListIFace (fixedServer 200 "\"a\"".toList (some (.str "a".toList))) "\"a\"".toList
      = (none, some .jsonType) :=
  ⟨((decoders_reject (fixedServer 200 "[1]".toList (some (.arr [.num 1]))) []).1 rfl).1,
   ((decoders_reject (fixedServer 200 "[1]".toList (some (.arr [.num 1])))
      "hello".toList).1 rfl).2.2,
   ((decoders_reject (fixedServer 200 "[1]".toList (some (.arr [.num 1])))
      "[1]".toList).2.1 (.arr [.num 1]) rfl (by simp) (by simp)).2,
   (decoders_reject (fixedServer 200 "\"a\"".toList (some (.str "a".toList)))
      "\"a\"".toList).2.2.1 (.str "a".toList) rfl (by simp) (by simp)⟩

/-- C21 fails as stated: for the valid JSON input `null`, whose root is
neither an object nor an array, each of the three decoders returns nil data
with a nil error. -/
theorem decoders_null_root_counterexample :
    decodeJSON (fixedServer 200 "null".toList (some .null)) "null".toList = (none, none) ∧
    (decodeJSONIFace (fixedServer 200 "null".toList (some .null)) "null".toList).1.isNone
      = true ∧
    (decodeJSONIFace (fixedServer 200 "null".toList (some .null)) "null".toList).2 = none ∧
    (decodeJSONListIFace (fixedServer 200 "null".toList (some .null)) "null".toList).1.isNone
      = true ∧
    (decodeJSONListIFace (fixedServer 200 "null".toList (some .null)) "null".toList).2
      = none := by
  decide

/-! ## Decoded posts -/

theorem asMap_eq_some (o : Option JSON) (p : GoMap JSON) (h : asMap o = some p) :
    ∃ members, o = some (.obj members) ∧ p = mkMap members := by
  match o, h with
  | some (.obj members), h => exact ⟨members, rfl, (Option.some.inj h).symm⟩

theorem asString_eq_some (o : Option JSON) (s : GoString) (h : asString o = some s) :
    o = some (.str s) := by
  match o, h with
  | some (.str s1), h => rw [Option.some.inj h]

/-- What `decodePost` stores in `Created` and `Tags`: the post is an object
with string fields `time` and `tags`; `Created` is the time `time.Parse`
returns for `time` (the zero time when it fails) and `Tags` is the `tags`
string split at the spaces. -/
theorem decodePost_fields (env : Env) (x : JSON) (b : Bookmark)
    (h : decodePost env x = some b) :
    ∃ members ts tags, x = .obj members ∧
      mapGet (mkMap members) "time".toList = some (.str ts) ∧
      mapGet (mkMap members) "tags".toList = some (.str tags) ∧
      b.Created = (env.parseRFC3339 ts).getD Time.zero ∧
      b.Tags = some (split tags ' ') := by
  unfold decodePost at h
  simp only [Option.bind_eq_bind, Option.bind_eq_some, bind, pure] at h
  obtain ⟨p, hp, ts, hts, href, _, desc, _, ext, _, tags, htags, sh, _, tr, _, hash, _,
    pm, _, hb⟩ := h
  obtain ⟨members, hx, hpm⟩ := asMap_eq_some _ _ hp
  subst hpm
  have hx1 : x = .obj members := Option.some.inj hx
  have h1 := asString_eq_some _ _ hts
  have h2 := asString_eq_some _ _ htags
  refine ⟨members, ts, tags, hx1, h1, h2, ?_, ?_⟩
  · rw [← Option.some.inj hb]
    cases env.parseRFC3339 ts <;> rfl
  · rw [← Option.some.inj hb]

theorem mapM_mem {α β : Type} (f : α → Option β) (l : List α) (bs : List β)
    (h : l.mapM f = some bs) : ∀ b ∈ bs, ∃ x ∈ l, f x = some b := by
  induction l generalizing bs with
  | nil =>
    have hbs : bs = [] := (Option.some.inj h).symm
    intro b hb
    rw [hbs] at hb
    exact absurd hb (List.not_mem_nil _)
  | cons a r ih =>
    rw [List.mapM_cons] at h
    simp only [Option.bind_eq_bind, Option.bind_eq_some, bind, pure] at h
    obtain ⟨b0, hb0, bs0, hbs0, hcons⟩ := h
    have hcons1 : b0 :: bs0 = bs := Option.some.inj hcons
    intro b hb
    rw [← hcons1] at hb
    rcases List.mem_cons.1 hb with h1 | h1
    · exact ⟨a, List.mem_cons_self _ _, h1 ▸ hb0⟩
    · obtain ⟨x, hx, hfx⟩ := ih bs0 hbs0 b h1
      exact ⟨x, List.mem_cons_of_mem _ hx, hfx⟩

/-- On an authenticated session, `Get` decodes the elements of the `posts`
array of the response with `decodePost`. -/
theorem Get_posts (env : Env) (p : Pinboard) (dt : Time) (URL : GoString)
    (tags : Option (List GoString)) (meta : Bool) (body : GoString)
    (members : List (GoString × JSON)) (posts : List JSON)
    (hp : p.authed = true)
    (hdo : doGet env (p.makeURL "posts/get".toList (some (getVals dt URL tags meta)))
      = (some body, none))
    (hj : env.jsonParse body = some (.obj members))
    (hposts : mapGet (mkMap members) "posts".toList = some (.arr posts)) :
    p.Get env dt URL tags meta
      = (posts.mapM (decodePost env)).bind fun bmarks =>
          some ⟨some bmarks, none,
            [p.makeURL "posts/get".toList (some (getVals dt URL tags meta))]⟩ := by
  unfold Pinboard.Get
  rw [performRequest_body env p _ body _ hp hdo]
  dsimp only
  rw [show (some body).getD [] = body from rfl, decodeJSONIFace_object env body members hj]
  dsimp only [ifaceIndex]
  rw [hposts]
  rfl

/-- On an authenticated session, `Recent` decodes the elements of the
`posts` array of the response with `decodePost`. -/
theorem Recent_posts (env : Env) (p : Pinboard) (tags : Option (List GoString))
    (count : Int) (body : GoString) (members : List (GoString × JSON)) (posts : List JSON)
    (hp : p.authed = true)
    (hdo : doGet env (p.makeURL "posts/recent".toList (some (recentVals tags count)))
      = (some body, none))
    (hj : env.jsonParse body = some (.obj members))
    (hposts : mapGet (mkMap members) "posts".toList = some (.arr posts)) :
    p.Recent env tags count
      = (posts.mapM (decodePost env)).bind fun bmarks =>
          some ⟨some bmarks, none,
            [p.makeURL "posts/recent".toList (some (recentVals tags count))]⟩ := by
  unfold Pinboard.Recent
  rw [performRequest_body env p _ body _ hp hdo]
  dsimp only
  rw [show (some body).getD [] = body from rfl, decodeJSONIFace_object env body members hj]
  dsimp only [ifaceIndex]
  rw [hposts]
  rfl

/-- On an authenticated session, `Bookmarks` decodes the elements of the
array of the response with `decodePost`. -/
theorem Bookmarks_posts (env : Env) (p : Pinboard) (tags : Option (List GoString))
    (offset count : Int) (start finish : Time) (meta : Bool) (body : GoString)
    (posts : List JSON) (hp : p.authed = true)
    (hdo : doGet env (p.makeURL "posts/all".toList
        (some (bookmarksVals tags offset count start finish meta))) = (some body, none))
    (hj : env.jsonParse body = some (.arr posts)) :
    p.Bookmarks env tags offset count start finish meta
      = (posts.mapM (decodePost env)).bind fun bmarks =>
          some ⟨some bmarks, none,
            [p.makeURL "posts/all".toList
              (some (bookmarksVals tags offset count start finish meta))]⟩ := by
  unfold Pinboard.Bookmarks
  rw [performRequest_body env p _ body _ hp hdo]
  dsimp only
  rw [show (some body).getD [] = body from rfl, decodeJSONListIFace_array env body posts hj]
  rfl

/-- Every bookmark of a decoded listing comes from a post object of the
response, with `Created` and `Tags` as `decodePost` stores them. -/
theorem listing_bookmarks (env : Env) (posts : List JSON) (gets : List GoString)
    (r : Ret (Option (List Bookmark))) (bs : List Bookmark)
    (h : ((posts.mapM (decodePost env)).bind fun bmarks =>
        some (⟨some bmarks, none, gets⟩ : Ret (Option (List Bookmark)))) = some r)
    (hbs : r.val = some bs) :
    r.err = none ∧
    ∀ b ∈ bs, ∃ members ts tags, JSON.obj members ∈ posts ∧
      mapGet (mkMap members) "time".toList = some (.str ts) ∧
      mapGet (mkMap members) "tags".toList = some (.str tags) ∧
      b.Created = (env.parseRFC3339 ts).getD Time.zero ∧
      b.Tags = some (split tags ' ') := by
  rw [Option.bind_eq_some] at h
  obtain ⟨bmarks, hm, hr⟩ := h
  have hr1 := Option.some.inj hr
  subst hr1
  have hbs1 : bmarks = bs := Option.some.inj hbs
  subst hbs1
  refine ⟨rfl, ?_⟩
  intro b hb
  obtain ⟨x, hx, hdx⟩ := mapM_mem _ _ _ hm b hb
  obtain ⟨members, ts, tags, hxm, h1, h2, h3, h4⟩ := decodePost_fields env x b hdx
  exact ⟨members, ts, tags, hxm ▸ hx, h1, h2, h3, h4⟩

/-! ## Times read from the wire -/

/-- C22 (as amended): on an authenticated session, the time `LastUpdate`
returns is exactly the value `time.Parse(time.RFC3339, ...)` gives for the
wire string `update_time`, and the `Created` field of every bookmark returned
by `Get`, `Recent` and `Bookmarks` is exactly the value it gives for the
`time` string of a post of the response (the zero time when the string does
not parse): the instant of the wire value in the location `time.Parse`
attaches to it, with no conversion to UTC. -/
theorem read_times_as_parsed (env : Env) (p : Pinboard) (hp : p.authed = true) :
    (∀ (body : GoString) (m : GoMap GoString) (t : Time),
      doGet env (p.makeURL "posts/update".toList none) = (some body, none) →
      decodeJSON env body = (some m, none) →
      env.parseRFC3339 ((mapGet m "update_time".toList).getD []) = some t →
      (p.LastUpdate env).val = t ∧ (p.LastUpdate env).err = none) ∧
    (∀ dt URL tags meta body members posts r bs,
      doGet env (p.makeURL "posts/get".toList (some (getVals dt URL tags meta)))
        = (some body, none) →
      env.jsonParse body = some (.obj members) →
      mapGet (mkMap members) "posts".toList = some (.arr posts) →
      p.Get env dt URL tags meta = some r → r.val = some bs →
      ∀ b ∈ bs, ∃ ms ts, JSON.obj ms ∈ posts ∧
        mapGet (mkMap ms) "time".toList = some (.str ts) ∧
        b.Created = (env.parseRFC3339 ts).getD Time.zero) ∧
    (∀ tags count body members posts r bs,
      doGet env (p.makeURL "posts/recent".toList (some (recentVals tags count)))
        = (some body, none) →
      env.jsonParse body = some (.obj members) →
      mapGet (mkMap members) "posts".toList = some (.arr posts) →
      p.Recent env tags count = some r → r.val = some bs →
      ∀ b ∈ bs, ∃ ms ts, JSON.obj ms ∈ posts ∧
        mapGet (mkMap ms) "time".toList = some (.str ts) ∧
        b.Created = (env.parseRFC3339 ts).getD Time.zero) ∧
    (∀ tags offset count start finish meta body posts r bs,
      doGet env (p.makeURL "posts/all".toList
          (some (bookmarksVals tags offset count start finish meta))) = (some body, none) →
      env.jsonParse body = some (.arr posts) →
      p.Bookmarks env tags offset count start finish meta = some r → r.val = some bs →
      ∀ b ∈ bs, ∃ ms ts, JSON.obj ms ∈ posts ∧
        mapGet (mkMap ms) "time".toList = some (.str ts) ∧
        b.Created = (env.parseRFC3339 ts).getD Time.zero) := by
  refine ⟨?_, ?_, ?_, ?_⟩
  · intro body m t hdo hdec hparse
    have hs : strIndex (some m) "update_time".toList
        = (mapGet m "update_time".toList).getD [] := rfl
    unfold Pinboard.LastUpdate
    rw [performRequest_body env p _ body _ hp hdo]
    dsimp only
    rw [show (some body).getD [] = body from rfl, hdec]
    dsimp only
    rw [hs, hparse]
    exact ⟨rfl, rfl⟩
  · intro dt URL tags meta body members posts r bs hdo hj hposts hr hbs b hb
    rw [Get_posts env p dt URL tags meta body members posts hp hdo hj hposts] at hr
    obtain ⟨ms, ts, _, h1, h2, _, h3, _⟩ := (listing_bookmarks env posts _ r bs hr hbs).2 b hb
    exact ⟨ms, ts, h1, h2, h3⟩
  · intro tags count body members posts r bs hdo hj hposts hr hbs b hb
    rw [Recent_posts env p tags count body members posts hp hdo hj hposts] at hr
    obtain ⟨ms, ts, _, h1, h2, _, h3, _⟩ := (listing_bookmarks env posts _ r bs hr hbs).2 b hb
    exact ⟨ms, ts, h1, h2, h3⟩
  · intro tags offset count start finish meta body posts r bs hdo hj hr hbs b hb
    rw [Bookmarks_posts env p tags offset count start finish meta body posts hp hdo hj] at hr
    obtain ⟨ms, ts, _, h1, h2, _, h3, _⟩ := (listing_bookmarks env posts _ r bs hr hbs).2 b hb
    exact ⟨ms, ts, h1, h2, h3⟩

theorem read_times_as_parsed_witness :
    (authedSession.LastUpdate
        (fixedServer 200 "update".toList
          (some (.obj [("update_time".toList, .str "2015-07-02T17:03:45Z".toList)])))).val
      = Date 2015 7 2 17 3 45 0 .utc ∧
    (authedSession.LastUpdate
        (fixedServer 200 "update".toList
          (some (.obj [("update_time".toList, .str "2015-07-02T17:03:45Z".toList)])))).err
      = none :=
  (read_times_as_parsed
    (fixedServer 200 "update".toList
      (some (.obj [("update_time".toList, .str "2015-07-02T17:03:45Z".toList)])))
    authedSession rfl).1 "update".toList
    [("update_time".toList, "2015-07-02T17:03:45Z".toList)] (Date 2015 7 2 17 3 45 0 .utc)
    (by decide) (by decide) (by decide)

/-- C22 fails as stated: for the wire time `2015-07-02T19:03:45+02:00`,
`LastUpdate` and `Get` return the instant 17:03:45 UTC in the zone two hours
east of UTC, not in the location UTC. -/
theorem read_time_offset_counterexample :
    (authedSession.LastUpdate (offsetServer offsetUpdateBody (some offsetUpdateValue))).err
      = none ∧
    (authedSession.LastUpdate (offsetServer offsetUpdateBody (some offsetUpdateValue))).val.loc
      = .fixed 7200 ∧
    (authedSession.LastUpdate (offsetServer offsetUpdateBody (some offsetUpdateValue))).val.sec
      = (Date 2015 7 2 17 3 45 0 .utc).sec ∧
    (authedSession.LastUpdate (offsetServer offsetUpdateBody (some offsetUpdateValue))).val.loc
      ≠ .utc ∧
    ((authedSession.Get
        (offsetServer postsBody (some (.obj [("posts".toList, .arr [offsetPostValue])])))
        Time.zero [] none false).bind fun r => r.val.map fun bs => bs.map fun b => b.Created.loc)
      = some [.fixed 7200] := by
  decide

/-! ## Tags read from the wire -/

theorem splitAux_length (sep : Char) (s cur : GoString) :
    (splitAux sep s cur).length = s.count sep + 1 := by
  induction s generalizing cur with
  | nil => rfl
  | cons c r ih =>
    by_cases hc : c = sep
    · subst hc
      simp only [splitAux, if_true, List.length_cons, ih, List.count_cons_self]
    · have hne : (c == sep) = false := by simpa using hc
      simp only [splitAux, hc, if_false, ih, List.count_cons, hne]
      rfl

theorem splitAux_ne_nil (sep : Char) (s cur : GoString) : splitAux sep s cur ≠ [] := by
  intro h
  have hl := splitAux_length sep s cur
  rw [h] at hl
  exact absurd hl (by simp)

theorem splitAux_intercalate (sep : Char) (s cur : GoString) :
    List.intercalate [sep] (splitAux sep s cur) = cur ++ s := by
  induction s generalizing cur with
  | nil => simp [splitAux, List.intercalate, List.intersperse]
  | cons c r ih =>
    by_cases hc : c = sep
    · subst hc
      simp only [splitAux, if_true]
      have hr := ih []
      cases hsp : splitAux c r [] with
      | nil => exact absurd hsp (splitAux_ne_nil c r [])
      | cons a rest =>
        rw [hsp] at hr
        rw [intercalate_cons_cons, hr]
        simp
    · simp only [splitAux, hc, if_false, ih]
      simp

theorem splitAux_no_sep (sep : Char) (s cur : GoString) (hcur : sep ∉ cur) :
    ∀ t ∈ splitAux sep s cur, sep ∉ t := by
  induction s generalizing cur with
  | nil =>
    intro t ht
    simp only [splitAux, List.mem_singleton] at ht
    rw [ht]
    exact hcur
  | cons c r ih =>
    intro t ht
    by_cases hc : c = sep
    · subst hc
      simp only [splitAux, if_true, List.mem_cons] at ht
      rcases ht with h | h
      · rw [h]
        exact hcur
      · exact ih [] (List.not_mem_nil _) t h
    · simp only [splitAux, hc, if_false] at ht
      refine ih (cur ++ [c]) ?_ t ht
      intro hmem
      rcases List.mem_append.1 hmem with h | h
      · exact hcur h
      · exact hc (List.mem_singleton.1 h).symm

/-- The pieces of `strings.Split(s, " ")`: joined by single spaces they give
`s` back, no piece contains a space, and there are as many as spaces in `s`
plus one. -/
theorem split_spaces (s : GoString) :
    List.intercalate [' '] (split s ' ') = s ∧
    (∀ t ∈ split s ' ', ' ' ∉ t) ∧
    (split s ' ').length = s.count ' ' + 1 ∧
    split s ' ' ≠ [] :=
  ⟨by simpa [split] using splitAux_intercalate ' ' s [],
   splitAux_no_sep ' ' s [] (List.not_mem_nil _),
   splitAux_length ' ' s [],
   splitAux_ne_nil ' ' s []⟩

/-- C23: for every post object that `decodePost` (the loop body of `Get`,
`Recent` and `Bookmarks`) decodes, `Tags` is the wire `tags` string split at
every single space: joining the pieces with single spaces gives the string
back and no piece contains a space; so `Tags` has exactly (number of spaces
in the string) + 1 elements and is never empty, and the empty string
decodes to the one-element list of the empty string. On an authenticated
session this holds for every bookmark that `Get`, `Recent` and `Bookmarks`
return. -/
theorem tags_split_at_spaces (env : Env) (p : Pinboard) (hp : p.authed = true) :
    (∀ x b, decodePost env x = some b →
      ∃ members tags, x = .obj members ∧
        mapGet (mkMap members) "tags".toList = some (.str tags) ∧
        b.Tags = some (split tags ' ') ∧
        List.intercalate [' '] (split tags ' ') = tags ∧
        (∀ t ∈ split tags ' ', ' ' ∉ t) ∧
        (split tags ' ').length = tags.count ' ' + 1 ∧
        split tags ' ' ≠ [] ∧
        (tags = [] → b.Tags = some [[]])) ∧
    (∀ dt URL tags meta body members posts r bs,
      doGet env (p.makeURL "posts/get".toList (some (getVals dt URL tags meta)))
        = (some body, none) →
      env.jsonParse body = some (.obj members) →
      mapGet (mkMap members) "posts".toList = some (.arr posts) →
      p.Get env dt URL tags meta = some r → r.val = some bs →
      ∀ b ∈ bs, ∃ ms wire, JSON.obj ms ∈ posts ∧
        mapGet (mkMap ms) "tags".toList = some (.str wire) ∧
        b.Tags = some (split wire ' ') ∧ (split wire ' ').length = wire.count ' ' + 1) ∧
    (∀ tags count body members posts r bs,
      doGet env (p.makeURL "posts/recent".toList (some (recentVals tags count)))
        = (some body, none) →
      env.jsonParse body = some (.obj members) →
      mapGet (mkMap members) "posts".toList = some (.arr posts) →
      p.Recent env tags count = some r → r.val = some bs →
      ∀ b ∈ bs, ∃ ms wire, JSON.obj ms ∈ posts ∧
        mapGet (mkMap ms) "tags".toList = some (.str wire) ∧
        b.Tags = some (split wire ' ') ∧ (split wire ' ').length = wire.count ' ' + 1) ∧
    (∀ tags offset count start finish meta body posts r bs,
      doGet env (p.makeURL "posts/all".toList
          (some (bookmarksVals tags offset count start finish meta))) = (some body, none) →
      env.jsonParse body = some (.arr posts) →
      p.Bookmarks env tags offset count start finish meta = some r → r.val = some bs →
      ∀ b ∈ bs, ∃ ms wire, JSON.obj ms ∈ posts ∧
        mapGet (mkMap ms) "tags".toList = some (.str wire) ∧
        b.Tags = some (split wire ' ') ∧ (split wire ' ').length = wire.count ' ' + 1) := by
  refine ⟨?_, ?_, ?_, ?_⟩
  · intro x b h
    obtain ⟨members, _, tags, hx, _, h2, _, h4⟩ := decodePost_fields env x b h
    obtain ⟨s1, s2, s3, s4⟩ := split_spaces tags
    refine ⟨members, tags, hx, h2, h4, s1, s2, s3, s4, ?_⟩
    intro ht
    rw [h4, ht]
    rfl
  · intro dt URL tags meta body members posts r bs hdo hj hposts hr hbs b hb
    rw [Get_posts env p dt URL tags meta body members posts hp hdo hj hposts] at hr
    obtain ⟨ms, _, wire, h1, _, h2, _, h4⟩ :=
      (listing_bookmarks env posts _ r bs hr hbs).2 b hb
    exact ⟨ms, wire, h1, h2, h4, (split_spaces wire).2.2.1⟩
  · intro tags count body members posts r bs hdo hj hposts hr hbs b hb
    rw [Recent_posts env p tags count body members posts hp hdo hj hposts] at hr
    obtain ⟨ms, _, wire, h1, _, h2, _, h4⟩ :=
      (listing_bookmarks env posts _ r bs hr hbs).2 b hb
    exact ⟨ms, wire, h1, h2, h4, (split_spaces wire).2.2.1⟩
  · intro tags offset count start finish meta body posts r bs hdo hj hr hbs b hb
    rw [Bookmarks_posts env p tags offset count start finish meta body posts hp hdo hj] at hr
    obtain ⟨ms, _, wire, h1, _, h2, _, h4⟩ :=
      (listing_bookmarks env posts _ r bs hr hbs).2 b hb
    exact ⟨ms, wire, h1, h2, h4, (split_spaces wire).2.2.1⟩

theorem tags_split_at_spaces_witness :
    decodePost (fixedServer 200 postsBody none) (postValue metaAndHash) = some firstBookmark ∧
    (∃ members tags, postValue metaAndHash = .obj members ∧
      mapGet (mkMap members) "tags".toList = some (.str tags) ∧
      firstBookmark.Tags = some (split tags ' ') ∧
      List.intercalate [' '] (split tags ' ') = tags ∧
      (∀ t ∈ split tags ' ', ' ' ∉ t) ∧
      (split tags ' ').length = tags.count ' ' + 1 ∧
      split tags ' ' ≠ [] ∧
      (tags = [] → firstBookmark.Tags = some [[]])) ∧
    (decodePost (fixedServer 200 postsBody none) untaggedPostValue).map (fun b => b.Tags)
      = some (some [[]]) :=
  ⟨by decide,
   (tags_split_at_spaces (fixedServer 200 postsBody none) authedSession rfl).1
     (postValue metaAndHash) firstBookmark (by decide),
   by decide⟩

end PinboardGo
